import Mathlib

/-!
Shallow embedding of the proof-logging MiniSat core (`src/core/Solver.cc`)
together with the parts of the missing headers (`Solver.h`, `SolverTypes.h`,
`mtl/*`) that the `.cc` file relies on.  Machine integers are modelled by
`Nat`/`Int`, C++ `double`/`float` by exact fractions (`Dbl`), the clause
arena by a list of clauses addressed by index, and `CRef_Undef` by
`Option`.  Loops whose termination depends on solver invariants take an
explicit fuel argument and return `none` on exhaustion; bounded loops are
structural.
-/

set_option maxRecDepth 10000

namespace MiniSatModel

/-- Variables are dense 0-based indices (`Var` in `SolverTypes.h`). -/
abbrev Var := Nat

/-- Literals use the MiniSat encoding `2*var + sign` (`Lit` in
`SolverTypes.h`, modelled from the spec: a literal is a (variable, sign)
pair with constant-time negation). -/
abbrev Lit := Nat

def mkLit (v : Var) (s : Bool) : Lit := 2 * v + (if s then 1 else 0)

def litVar (p : Lit) : Var := p / 2

def litSign (p : Lit) : Bool := decide (p % 2 = 1)

/-- Negation flips the low bit of the literal code. -/
def litNeg (p : Lit) : Lit := if p % 2 = 1 then p - 1 else p + 1

/-- Three-valued assignment (`lbool`). -/
inductive LBool where
  | t
  | f
  | u
deriving DecidableEq, Repr

/-- Negation on `lbool` (used by `value(Lit)` for negative literals). -/
def LBool.negb : LBool → LBool
  | .t => .f
  | .f => .t
  | .u => .u

/-- Modelled from the spec: C++ `double`/`float` values are modelled by
exact fractions (numerator over positive denominator, not necessarily
reduced), so all arithmetic and comparisons are exact. -/
structure Dbl where
  num : Int
  den : Int
deriving DecidableEq, Repr

instance : OfNat Dbl n := ⟨⟨n, 1⟩⟩

instance : Add Dbl := ⟨fun a b => ⟨a.num * b.den + b.num * a.den, a.den * b.den⟩⟩

instance : Sub Dbl := ⟨fun a b => ⟨a.num * b.den - b.num * a.den, a.den * b.den⟩⟩

instance : Mul Dbl := ⟨fun a b => ⟨a.num * b.num, a.den * b.den⟩⟩

/-- Division, keeping the denominator positive. -/
instance : Div Dbl := ⟨fun a b =>
  let n := a.num * b.den
  let d := a.den * b.num
  if d < 0 then ⟨-n, -d⟩ else ⟨n, d⟩⟩

instance : LT Dbl := ⟨fun a b => a.num * b.den < b.num * a.den⟩

instance : LE Dbl := ⟨fun a b => a.num * b.den ≤ b.num * a.den⟩

instance (a b : Dbl) : Decidable (a < b) :=
  inferInstanceAs (Decidable (a.num * b.den < b.num * a.den))

instance (a b : Dbl) : Decidable (a ≤ b) :=
  inferInstanceAs (Decidable (a.num * b.den ≤ b.num * a.den))

instance : HPow Dbl Nat Dbl := ⟨fun a n => ⟨a.num ^ n, a.den ^ n⟩⟩

def Dbl.ofNat (n : Nat) : Dbl := ⟨n, 1⟩

def Dbl.ofInt (i : Int) : Dbl := ⟨i, 1⟩

/-- Floor of an exact fraction (denominator positive). -/
def Dbl.floor (a : Dbl) : Int := Int.fdiv a.num a.den

/-- Truncation toward zero, the C++ `(int)` cast applied to a `double`. -/
def Dbl.trunc (a : Dbl) : Int := Int.tdiv a.num a.den

/-- A sorted insertion (the sorts of the missing `mtl/Sort.h` are
modelled by insertion sort, deterministic and comparator-consistent). -/
def insertLe {α : Type} (le : α → α → Bool) (a : α) : List α → List α
  | [] => [a]
  | b :: t => if le a b then a :: b :: t else b :: insertLe le a t

/-- Modelled from the spec: `sort` from the missing `mtl/Sort.h`. -/
def sortLe {α : Type} (le : α → α → Bool) (l : List α) : List α :=
  l.foldr (insertLe le) []

/-- Modelled from the spec: a partition `Range` is a closed interval
`[lo, hi]` over partition ids, with `undef` represented by `none`
(spec: `undef` iff `lo > hi`).  The header defining `Range` is not in
`src/`. -/
abbrev Range := Option (Nat × Nat)

/-- Modelled from the spec: `join` is interval union (min of `lo`,
max of `hi`); joining with the undefined range is the identity. -/
def Range.join : Range → Range → Range
  | none, r => r
  | r, none => r
  | some (a, b), some (c, d) => some (min a c, max b d)

/-- Modelled from the spec: a singleton range has `lo == hi`. -/
def Range.isSingleton : Range → Bool
  | some (a, b) => decide (a = b)
  | none => false

/-- Modelled from the spec: the range is undefined iff `lo > hi`. -/
def Range.isUndef : Range → Bool
  | none => true
  | some _ => false

/-- Arena-owned clause (`Clause` in `SolverTypes.h`): ordered literal list,
`learnt` flag, deletion `mark`, validator `core` flag, activity and
partition range.  Clause activity (`float`) is modelled by `Dbl`. -/
structure Clause where
  lits : List Lit := []
  learnt : Bool := false
  mark : Nat := 0
  core : Bool := false
  act : Dbl := 0
  part : Range := none
deriving DecidableEq, Repr

def Clause.size (c : Clause) : Nat := c.lits.length

def Clause.get (c : Clause) (i : Nat) : Lit := c.lits.getD i 0

/-- Watch-list entry `(clause, blocker)` (`Watcher` in `Solver.h`). -/
structure Watcher where
  cref : Nat
  blocker : Lit
deriving DecidableEq, Repr

/-- Per-variable data: reason clause (or none) and decision level
(`VarData` in `Solver.h`; the spec lists both under Variable state). -/
structure VarData where
  reason : Option Nat := none
  level : Nat := 0
deriving DecidableEq, Repr

/-- Events emitted to a `ProofVisitor` (`ProofVisitor.h`).  Each event
snapshots the `chainClauses`/`chainPivots` buffers at call time, since
visitors read them only during the call. -/
inductive PEvent where
  | binRes (parent : Lit) (p1 : Lit) (p2 : Nat)
  | chainLit (parent : Lit) (cs : List Nat) (ps : List Lit)
  | chainCRef (parent : Option Nat) (cs : List Nat) (ps : List Lit)
deriving DecidableEq, Repr

/-- State of a proof visitor: the driver-owned chain buffers plus the
trace of emitted resolution events. -/
structure PVisitor where
  chainClauses : List Nat := []
  chainPivots : List Lit := []
  events : List PEvent := []
deriving DecidableEq, Repr

/-- The solver state: every member of `Solver` (from `Solver.h`, modelled
from the spec and its uses in `Solver.cc`) that the translated code reads
or writes.  Defaults follow the constructor in `Solver.cc` with the
default option values. -/
structure Solver where
  ok : Bool := true
  log_proof : Bool := true
  var_decay : Dbl := 19 / 20
  clause_decay : Dbl := 999 / 1000
  random_var_freq : Dbl := 0
  random_seed : Dbl := 91648253
  luby_restart : Bool := true
  ccmin_mode : Nat := 0
  phase_saving : Nat := 2
  rnd_pol : Bool := false
  rnd_init_act : Bool := false
  garbage_frac : Option Dbl := none
  restart_first : Nat := 100
  restart_inc : Dbl := 2
  learntsize_factor : Dbl := 1 / 3
  learntsize_inc : Dbl := 11 / 10
  learntsize_adjust_start_confl : Dbl := 100
  learntsize_adjust_inc : Dbl := 3 / 2
  solves : Nat := 0
  starts : Nat := 0
  decisions : Nat := 0
  rnd_decisions : Nat := 0
  propagations : Nat := 0
  conflicts : Nat := 0
  dec_vars : Nat := 0
  clauses_literals : Nat := 0
  learnts_literals : Nat := 0
  max_literals : Nat := 0
  tot_literals : Nat := 0
  cla_inc : Dbl := 1
  var_inc : Dbl := 1
  qhead : Nat := 0
  simpDB_assigns : Int := -1
  simpDB_props : Int := 0
  progress_estimate : Dbl := 0
  remove_satisfied : Bool := true
  conflict_budget : Int := -1
  propagation_budget : Int := -1
  asynch_interrupt : Bool := false
  start : Int := 0
  assigns : List LBool := []
  vardata : List VarData := []
  activity : List Dbl := []
  polarity : List Bool := []
  decision : List Bool := []
  seen : List Bool := []
  trail : List Lit := []
  trail_lim : List Nat := []
  clauses : List Nat := []
  learnts : List Nat := []
  proof : List Nat := []
  ca : List Clause := []
  wasted : Nat := 0
  watches : List (List Watcher) := []
  dirty : List Bool := []
  order_heap : List Var := []
  partInfo : List Range := []
  trail_part : List Range := []
  totalPart : Range := none
  model : List LBool := []
  conflict : List Lit := []
  assumptions : List Lit := []
  analyze_stack : List Lit := []
  analyze_toclear : List Lit := []
  max_learnts : Dbl := 0
  learntsize_adjust_confl : Dbl := 0
  learntsize_adjust_cnt : Int := 0

instance : Inhabited Solver := ⟨{}⟩

/-- Modelled from the spec: `nVars()` (missing `Solver.h`). -/
def nVars (s : Solver) : Nat := s.vardata.length

/-- Modelled from the spec: `nAssigns()` is the trail length. -/
def nAssigns (s : Solver) : Nat := s.trail.length

/-- Modelled from the spec: `nClauses()`. -/
def nClauses (s : Solver) : Nat := s.clauses.length

/-- Modelled from the spec: `nLearnts()`. -/
def nLearnts (s : Solver) : Nat := s.learnts.length

/-- Modelled from the spec invariant: `decisionLevel() = trail_lim.len()`. -/
def decisionLevel (s : Solver) : Nat := s.trail_lim.length

/-- Modelled from the spec: `value(Var)` reads the assignment. -/
def valueVar (s : Solver) (x : Var) : LBool := s.assigns.getD x .u

/-- Modelled from the spec: `value(Lit)` is the variable's assignment
negated for a negative literal. -/
def value (s : Solver) (p : Lit) : LBool :=
  if litSign p then (valueVar s (litVar p)).negb else valueVar s (litVar p)

/-- Modelled from the spec: `reason(Var)`. -/
def reason (s : Solver) (x : Var) : Option Nat := (s.vardata.getD x {}).reason

/-- Modelled from the spec: `level(Var)`. -/
def level (s : Solver) (x : Var) : Nat := (s.vardata.getD x {}).level

/-- Arena lookup `ca[cr]`; out-of-range access (undefined behaviour in the
C++ source) yields the default clause. -/
def getClause (s : Solver) (cr : Nat) : Clause := s.ca.getD cr {}

/-- Modelled from the spec: `abstractLevel(x) = 1 << (level(x) & 31)`. -/
def abstractLevel (s : Solver) (x : Var) : Nat := 2 ^ (level s x % 32)

/-- Modelled from the spec (and the comment above `reduceDB` in
`Solver.cc`): a clause is locked iff it is the reason of its first
literal's currently-true assignment. -/
def locked (s : Solver) (cr : Nat) : Bool :=
  let c := getClause s cr
  decide (value s (c.get 0) = .t) && decide (reason s (litVar (c.get 0)) = some cr)

/-- Modelled from the spec: `modelValue(Lit)` reads the stored model. -/
def modelValue (s : Solver) (p : Lit) : LBool :=
  if litSign p then (s.model.getD (litVar p) .u).negb else s.model.getD (litVar p) .u

/-- Modelled from the spec: budget check polled between restarts. -/
def withinBudget (s : Solver) : Bool :=
  (decide (s.conflict_budget < 0) || decide ((s.conflicts : Int) < s.conflict_budget)) &&
  (decide (s.propagation_budget < 0) || decide ((s.propagations : Int) < s.propagation_budget)) &&
  !s.asynch_interrupt

/-- Modelled from the spec: the deterministic random source `drand` of the
missing `Solver.h`, on exact rationals.  Returns the sample and the
updated seed. -/
def drand (seed : Dbl) : Dbl × Dbl :=
  let s0 := seed * 1389796
  let q : Int := Dbl.trunc (s0 / 2147483647)
  let s1 := s0 - Dbl.ofInt q * 2147483647
  (s1 / 2147483647, s1)

/-- Modelled from the spec: `irand(seed, size)` draws an integer below
`size`. -/
def irand (seed : Dbl) (size : Nat) : Int × Dbl :=
  let (d, s1) := drand seed
  (Dbl.trunc (d * Dbl.ofNat size), s1)

/-- Replace the clause stored at `cr` (arena mutation). -/
def setClause (s : Solver) (cr : Nat) (c : Clause) : Solver :=
  { s with ca := s.ca.set cr c }

/-- Modelled from the spec: the order heap holds unassigned
decision-eligible variables (plus stale entries); the heap structure of
the missing `mtl/Heap.h` is modelled as a list from which `removeMin`
extracts the activity-maximal variable (`VarOrderLt` orders by greater
activity). -/
def heapInsert (s : Solver) (x : Var) : Solver :=
  { s with order_heap := s.order_heap ++ [x] }

/-- Index (into `order_heap`) of the activity-maximal entry. -/
def heapBestIdx (s : Solver) : Nat :=
  let acts := s.order_heap.map (fun v => s.activity.getD v 0)
  (List.range s.order_heap.length).foldl
    (fun best i => if acts.getD i 0 > acts.getD best 0 then i else best) 0

/-- Modelled from the spec: `removeMin` pops the variable the heap order
ranks first, i.e. one of maximal activity. -/
def heapRemoveMin (s : Solver) : Option (Var × Solver) :=
  match s.order_heap with
  | [] => none
  | _ :: _ =>
    let i := heapBestIdx s
    let x := s.order_heap.getD i 0
    some (x, { s with order_heap := s.order_heap.take i ++ s.order_heap.drop (i + 1) })

/-- Modelled from the spec: `insertVarOrder(x)` inserts `x` if it is
decision-eligible and not already present. -/
def insertVarOrder (s : Solver) (x : Var) : Solver :=
  if !(s.order_heap.contains x) && s.decision.getD x false then heapInsert s x else s

/-- Modelled from the spec: `setDecisionVar` maintains `dec_vars` and the
eligibility flag, then inserts into the order heap. -/
def setDecisionVar (s : Solver) (v : Var) (b : Bool) : Solver :=
  let s :=
    if b && !(s.decision.getD v false) then { s with dec_vars := s.dec_vars + 1 }
    else if !b && s.decision.getD v false then { s with dec_vars := s.dec_vars - 1 }
    else s
  insertVarOrder { s with decision := s.decision.set v b } v

/-- `Solver::newVar` (`Solver.cc`): grow all per-variable arrays and the
two watch lists for the new variable's literals. -/
def newVar (s : Solver) (sign : Bool) (dvar : Bool) : Var × Solver :=
  let v := nVars s
  let (act, seed) :=
    if s.rnd_init_act then
      let (d, seed) := drand s.random_seed
      (d * (1 / 100000 : Dbl), seed)
    else (0, s.random_seed)
  let s := { s with
    random_seed := seed
    watches := s.watches ++ [[], []]
    dirty := s.dirty ++ [false, false]
    assigns := s.assigns ++ [.u]
    vardata := s.vardata ++ [{}]
    activity := s.activity ++ [act]
    seen := s.seen ++ [false]
    polarity := s.polarity ++ [sign]
    decision := s.decision ++ [false]
    partInfo := s.partInfo ++ [(none : Range)]
    trail_part := s.trail_part ++ [(none : Range)] }
  (v, setDecisionVar s v dvar)

/-- Push a watcher onto the list watched by literal `p`. -/
def pushWatch (s : Solver) (p : Lit) (w : Watcher) : Solver :=
  { s with watches := s.watches.set p (s.watches.getD p [] ++ [w]) }

/-- `Solver::attachClause` (`Solver.cc`). -/
def attachClause (s : Solver) (cr : Nat) : Solver :=
  let c := getClause s cr
  let s := pushWatch s (litNeg (c.get 0)) ⟨cr, c.get 1⟩
  let s := pushWatch s (litNeg (c.get 1)) ⟨cr, c.get 0⟩
  if c.learnt then { s with learnts_literals := s.learnts_literals + c.size }
  else { s with clauses_literals := s.clauses_literals + c.size }

/-- Modelled from the spec: `smudge(lit)` marks a watch list dirty for
lazy deletion (`OccLists` of the missing `mtl/Vec.h`). -/
def smudge (s : Solver) (p : Lit) : Solver :=
  { s with dirty := s.dirty.set p true }

/-- `Solver::detachClause` (`Solver.cc`); `strict` removes the watchers
eagerly, the default lazily smudges both lists. -/
def detachClause (s : Solver) (cr : Nat) (strict : Bool) : Solver :=
  let c := getClause s cr
  let s :=
    if strict then
      let w0 : Watcher := ⟨cr, c.get 1⟩
      let w1 : Watcher := ⟨cr, c.get 0⟩
      let ws0 := (s.watches.getD (litNeg (c.get 0)) []).erase w0
      let s := { s with watches := s.watches.set (litNeg (c.get 0)) ws0 }
      let ws1 := (s.watches.getD (litNeg (c.get 1)) []).erase w1
      { s with watches := s.watches.set (litNeg (c.get 1)) ws1 }
    else smudge (smudge s (litNeg (c.get 0))) (litNeg (c.get 1))
  if c.learnt then { s with learnts_literals := s.learnts_literals - c.size }
  else { s with clauses_literals := s.clauses_literals - c.size }

/-- The first half of `Solver::removeClause` (`Solver.cc`): log the
deletion in the proof if requested and detach a non-unit clause. -/
def removeClausePre (s : Solver) (cr : Nat) : Solver :=
  let s := if s.log_proof then { s with proof := s.proof ++ [cr] } else s
  if (getClause s cr).size > 1 then detachClause s cr false else s

/-- `Solver::removeClause` (`Solver.cc`): with proof logging the deletion
is recorded in the proof and the storage is never freed; without it a
locked clause's reason pointer is cleared and the arena space is wasted
(`ca.free`, modelled by the `wasted` counter). -/
def removeClause (s : Solver) (cr : Nat) : Solver :=
  let c := getClause s cr
  let s := removeClausePre s cr
  let s :=
    if locked s cr && !s.log_proof then
      let vd := { s.vardata.getD (litVar (c.get 0)) {} with reason := none }
      { s with vardata := s.vardata.set (litVar (c.get 0)) vd }
    else s
  let s := setClause s cr { getClause s cr with mark := 1 }
  if !s.log_proof then { s with wasted := s.wasted + c.size + 1 } else s

/-- `Solver::satisfied` (`Solver.cc`). -/
def satisfied (s : Solver) (c : Clause) : Bool :=
  c.lits.any (fun l => decide (value s l = .t))

/-- Modelled from the spec: `newDecisionLevel` bookmarks the trail. -/
def newDecisionLevel (s : Solver) : Solver :=
  { s with trail_lim := s.trail_lim ++ [s.trail.length] }

/-- One iteration of the backtracking loop of `Solver::cancelUntil`,
undoing the assignment at trail position `c`. -/
def cancelStep (s : Solver) (c : Nat) : Solver :=
  let x := litVar (s.trail.getD c 0)
  let s := { s with assigns := s.assigns.set x .u }
  let s :=
    if s.phase_saving > 1 ∨ (s.phase_saving = 1 ∧ c > s.trail_lim.getLastD 0) then
      { s with polarity := s.polarity.set x (litSign (s.trail.getD c 0)) }
    else s
  insertVarOrder s x

/-- `Solver::cancelUntil` (`Solver.cc`). -/
def cancelUntil (s : Solver) (lvl : Nat) : Solver :=
  if decisionLevel s > lvl then
    let lim := s.trail_lim.getD lvl 0
    let s := (List.range' lim (s.trail.length - lim)).reverse.foldl cancelStep s
    { s with
      qhead := lim
      trail := s.trail.take lim
      trail_lim := s.trail_lim.take lvl }
  else s

/-- `Solver::uncheckedEnqueue` (`Solver.cc`): store the assignment with
its reason and level, push the trail, and at level 0 with proof logging
compute the trail partition of the variable from the reason clause and
the partitions of the reasons of its remaining literals. -/
def uncheckedEnqueue (s : Solver) (p : Lit) (from? : Option Nat) : Solver :=
  let x := litVar p
  let s := { s with
    assigns := s.assigns.set x (if litSign p then .f else .t)
    vardata := s.vardata.set x ⟨from?, decisionLevel s⟩
    trail := s.trail ++ [p] }
  if s.log_proof && decide (decisionLevel s = 0) then
    match from? with
    | some fr =>
      let c := getClause s fr
      let r := (c.lits.drop 1).foldl
        (fun r l =>
          match reason s (litVar l) with
          | some rc => r.join (getClause s rc).part
          | none => r)
        c.part
      { s with trail_part := s.trail_part.set x r }
    | none => s
  else s

/-- Modelled from the spec: `enqueue(p, from)` of the missing `Solver.h`;
an already-assigned literal reports consistency, otherwise the literal is
enqueued. -/
def enqueue (s : Solver) (p : Lit) (from? : Option Nat) : Bool × Solver :=
  if value s p ≠ .u then (decide (value s p ≠ .f), s)
  else (true, uncheckedEnqueue s p from?)

/-- Modelled from the spec: `varDecayActivity`. -/
def varDecayActivity (s : Solver) : Solver :=
  { s with var_inc := s.var_inc * (1 / s.var_decay) }

/-- Modelled from the spec: `claDecayActivity`. -/
def claDecayActivity (s : Solver) : Solver :=
  { s with cla_inc := s.cla_inc * (1 / s.clause_decay) }

/-- Modelled from the spec: `varBumpActivity` with the `1e100` rescale. -/
def varBumpActivity (s : Solver) (v : Var) : Solver :=
  let a := s.activity.getD v 0 + s.var_inc
  let s := { s with activity := s.activity.set v a }
  if a > (10 : Dbl) ^ 100 then
    { s with
      activity := s.activity.map (fun x => x * ((1 : Dbl) / (10 : Dbl) ^ 100))
      var_inc := s.var_inc * ((1 : Dbl) / (10 : Dbl) ^ 100) }
  else s

/-- Modelled from the spec: `claBumpActivity` with the `1e20` rescale over
all learnt clauses. -/
def claBumpActivity (s : Solver) (cr : Nat) : Solver :=
  let c := getClause s cr
  let a := c.act + s.cla_inc
  let s := setClause s cr { c with act := a }
  if a > (10 : Dbl) ^ 20 then
    let s := s.learnts.foldl
      (fun s lr => setClause s lr
        { getClause s lr with act := (getClause s lr).act * ((1 : Dbl) / (10 : Dbl) ^ 20) })
      s
    { s with cla_inc := s.cla_inc * ((1 : Dbl) / (10 : Dbl) ^ 20) }
  else s

/-- Modelled from the spec: `cleanAll` rewrites each smudged watch list,
dropping watchers of deleted (`mark == 1`) clauses. -/
def cleanAll (s : Solver) : Solver :=
  { s with
    watches := (List.range s.watches.length).map (fun i =>
      if s.dirty.getD i false then
        (s.watches.getD i []).filter (fun w => decide ((getClause s w.cref).mark ≠ 1))
      else s.watches.getD i [])
    dirty := s.dirty.map (fun _ => false) }

/-- First index `k ≥ 2` of a non-False literal of `c` (the new-watch
search of `Solver::propagate`). -/
def findNewWatch (s : Solver) (c : Clause) : Option Nat :=
  (List.range c.size).find? (fun k => decide (2 ≤ k) && decide (value s (c.get k) ≠ .f))

/-- The watcher-list drain of `Solver::propagate` for one enqueued
literal `p`: processes the pending watchers, accumulating the compacted
list; on conflict the remaining watchers are copied back unchanged.
Returns (conflict, rewritten watch list of `p`, state). -/
def procWatches (coreOnly : Bool) (p : Lit) :
    List Watcher → List Watcher → Solver → Option Nat × List Watcher × Solver
  | [], kept, s => (none, kept, s)
  | w :: rest, kept, s =>
    if value s w.blocker = .t then procWatches coreOnly p rest (kept ++ [w]) s
    else
      let cr := w.cref
      let c := getClause s cr
      if coreOnly && !c.core then procWatches coreOnly p rest (kept ++ [w]) s
      else
        let false_lit := litNeg p
        let c :=
          if c.get 0 = false_lit then
            { c with lits := (c.lits.set 0 (c.get 1)).set 1 false_lit }
          else c
        let s := setClause s cr c
        let first := c.get 0
        let w' : Watcher := ⟨cr, first⟩
        if first ≠ w.blocker ∧ value s first = .t then
          procWatches coreOnly p rest (kept ++ [w']) s
        else
          match findNewWatch s c with
          | some k =>
            let c := { c with lits := (c.lits.set 1 (c.get k)).set k false_lit }
            let s := setClause s cr c
            let s := pushWatch s (litNeg (c.get 1)) w'
            procWatches coreOnly p rest kept s
          | none =>
            if value s first = .f then (some cr, kept ++ [w'] ++ rest, s)
            else procWatches coreOnly p rest (kept ++ [w']) (uncheckedEnqueue s first (some cr))

/-- The main loop of `Solver::propagate`; `fuel` bounds the number of
dequeued literals (the C++ loop terminates by the solver invariants). -/
def propagateLoop (coreOnly : Bool) :
    Nat → Solver → Nat → Option (Option Nat × Solver)
  | 0, _, _ => none
  | fuel + 1, s, np =>
    if s.qhead < s.trail.length then
      let p := s.trail.getD s.qhead 0
      let s := { s with qhead := s.qhead + 1 }
      let ws := s.watches.getD p []
      let r := procWatches coreOnly p ws [] s
      let s := { r.2.2 with watches := r.2.2.watches.set p r.2.1 }
      match r.1 with
      | some cr =>
        some (some cr, { s with
          qhead := s.trail.length
          propagations := s.propagations + np + 1
          simpDB_props := s.simpDB_props - ((np : Int) + 1) })
      | none => propagateLoop coreOnly fuel s (np + 1)
    else
      some (none, { s with
        propagations := s.propagations + np
        simpDB_props := s.simpDB_props - (np : Int) })

/-- `Solver::propagate` (`Solver.cc`): clean the watch lists, then drain
the propagation queue; returns the conflicting clause, if any. -/
def propagate (fuel : Nat) (coreOnly : Bool) (s : Solver) :
    Option (Option Nat × Solver) :=
  propagateLoop coreOnly fuel (cleanAll s) 0

/-- Allocate a clause in the arena (`ca.alloc`): fresh index at the end. -/
def allocClause (s : Solver) (lits : List Lit) (learnt : Bool) : Nat × Solver :=
  (s.ca.length, { s with ca := s.ca ++ [{ lits := lits, learnt := learnt }] })

/-- The duplicate/satisfied scan of `Solver::addClause_` in the
proof-logging branch: `none` means the clause was found satisfied or
tautological (early `return true`), otherwise the kept literals. -/
def acScanLog (s : Solver) : List Lit → Option Lit → List Lit → Option (List Lit)
  | [], _, acc => some acc
  | l :: rest, prev, acc =>
    if value s l = .t ∨ prev.map litNeg = some l then none
    else if some l ≠ prev then acScanLog s rest (some l) (acc ++ [l])
    else acScanLog s rest prev acc

/-- The original MiniSat scan of `Solver::addClause_` (proof logging
off): additionally drops False literals. -/
def acScanPlain (s : Solver) : List Lit → Option Lit → List Lit → Option (List Lit)
  | [], _, acc => some acc
  | l :: rest, prev, acc =>
    if value s l = .t ∨ prev.map litNeg = some l then none
    else if value s l ≠ .f ∧ some l ≠ prev then acScanPlain s rest (some l) (acc ++ [l])
    else acScanPlain s rest prev acc

/-- The move-False-literals-to-the-tail loop of `Solver::addClause_`
(swap with the last in-window element, shrink the window, re-examine). -/
def moveFalseLoop (s : Solver) : Nat → List Lit → Nat → Nat → List Lit
  | 0, ps, _, _ => ps
  | fuel + 1, ps, i, sz =>
    if i < sz then
      if value s (ps.getD i 0) = .f then
        let l := ps.getD i 0
        let ps := (ps.set i (ps.getD (sz - 1) 0)).set (sz - 1) l
        moveFalseLoop s fuel ps i (sz - 1)
      else moveFalseLoop s fuel ps (i + 1) sz
    else ps

/-- The trailing `partInfo` join of `Solver::addClause_`: executed for
every literal only when `part` is a singleton. -/
def partInfoJoin (s : Solver) (part : Range) (ps : List Lit) : Solver :=
  if part.isSingleton then
    ps.foldl
      (fun s l =>
        let r := (s.partInfo.getD (litVar l) none).join part
        { s with partInfo := s.partInfo.set (litVar l) r })
      s
  else s

/-- `Solver::addClause_` (`Solver.cc`).  `fuel` feeds the level-0
propagation of the unit branch; `none` arises only from fuel
exhaustion. -/
def addClause_ (fuel : Nat) (ps0 : List Lit) (part : Range) (s : Solver) :
    Option (Bool × Solver) :=
  if !s.ok then some (false, s)
  else
    let sorted := sortLe (fun a b : Lit => decide (a ≤ b)) ps0
    let scan := if s.log_proof then acScanLog s sorted none [] else acScanPlain s sorted none []
    match scan with
    | none => some (true, s)
    | some ps1 =>
      let ps := if s.log_proof then moveFalseLoop s (ps1.length + 1) ps1 0 ps1.length else ps1
      if ps.length = 0 then some (false, { s with ok := false })
      else if s.log_proof && decide (value s (ps.getD 0 0) = .f) then
        let (cr, s) := allocClause s ps false
        let c := getClause s cr
        let s := setClause s cr { c with part := c.part.join part }
        let s := { s with proof := s.proof ++ [cr] }
        let s := partInfoJoin s part ps
        some (false, { s with ok := false })
      else if ps.length = 1 || (s.log_proof && decide (value s (ps.getD 1 0) = .f)) then
        let s :=
          if s.log_proof then
            let (cr, s) := allocClause s ps false
            let c := getClause s cr
            let s := setClause s cr { c with part := c.part.join part }
            let s := { s with clauses := s.clauses ++ [cr], totalPart := s.totalPart.join part }
            uncheckedEnqueue s (ps.getD 0 0) (some cr)
          else uncheckedEnqueue s (ps.getD 0 0) none
        let s := partInfoJoin s part ps
        match propagate fuel false s with
        | none => none
        | some (confl, s) =>
          let okNow := decide (confl = none)
          some (okNow, { s with ok := okNow })
      else
        let (cr, s) := allocClause s ps false
        let c := getClause s cr
        let s := setClause s cr { c with part := c.part.join part }
        let s := { s with clauses := s.clauses ++ [cr], totalPart := s.totalPart.join part }
        let s := attachClause s cr
        let s := partInfoJoin s part ps
        some (true, s)

/-- The literal scan of one `analyze` resolution step (`Solver.cc`,
the `for j` loop): bump and mark unseen positive-level literals, counting
current-level ones in `pathC` and collecting the rest into the learnt
clause; level-0 literals fold their trail partition into `part`. -/
def analyzeScanStep (dl : Nat) (acc : Solver × List Lit × Int × Range) (q : Lit) :
    Solver × List Lit × Int × Range :=
  let (s, outl, pathC, part) := acc
  if !(s.seen.getD (litVar q) false) then
    if level s (litVar q) > 0 then
      let s := varBumpActivity s (litVar q)
      let s := { s with seen := s.seen.set (litVar q) true }
      if level s (litVar q) ≥ dl then (s, outl, pathC + 1, part)
      else (s, outl ++ [q], pathC, part)
    else if s.log_proof then (s, outl, pathC, part.join (s.trail_part.getD (litVar q) none))
    else acc
  else acc

/-- The `while (!seen[var(trail[index--])])` walk of `analyze`: the
greatest position `≤ i` whose variable is marked seen. -/
def findSeenDown (s : Solver) : Nat → Option Nat
  | 0 => if s.seen.getD (litVar (s.trail.getD 0 0)) false then some 0 else none
  | i + 1 =>
    if s.seen.getD (litVar (s.trail.getD (i + 1) 0)) false then some (i + 1)
    else findSeenDown s i

/-- One resolution step of the `analyze` loop: join the clause
partition, bump learnt-clause activity, and scan the clause literals
(from position 0 for the conflict clause, 1 for a reason). -/
def analyzeResolveStep (dl : Nat) (cr : Nat) (p : Option Lit)
    (acc : Solver × List Lit × Int × Range) : Solver × List Lit × Int × Range :=
  let s := acc.1
  let c := getClause s cr
  let part := if s.log_proof then acc.2.2.2.join c.part else acc.2.2.2
  let s := if c.learnt then claBumpActivity s cr else s
  (c.lits.drop (if p.isNone then 0 else 1)).foldl (analyzeScanStep dl) (s, acc.2.1, acc.2.2.1, part)

/-- The main first-UIP resolution loop of `Solver::analyze` (the
`do … while (pathC > 0)`).  `none` on fuel exhaustion or when an
assertion of the source (`confl != CRef_Undef`, a seen literal exists on
the trail) fails. -/
def analyzeLoop (dl : Nat) :
    Nat → Option Nat → Option Lit → Nat → Solver × List Lit × Int × Range →
    Option (Solver × List Lit × Lit × Range)
  | 0, _, _, _, _ => none
  | fuel + 1, confl?, p, index, acc =>
    match confl? with
    | none => none
    | some cr =>
      let scanned := analyzeResolveStep dl cr p acc
      match findSeenDown scanned.1 index with
      | none => none
      | some idx =>
        let p' := scanned.1.trail.getD idx 0
        let confl' := reason scanned.1 (litVar p')
        let s := { scanned.1 with seen := scanned.1.seen.set (litVar p') false }
        let pathC := scanned.2.2.1 - 1
        if pathC > 0 then
          analyzeLoop dl fuel confl' (some p') (idx - 1) (s, scanned.2.1, pathC, scanned.2.2.2)
        else some (s, scanned.2.1, p', scanned.2.2.2)

/-- The rollback of a failed `litRedundant` call: clear the `seen` marks
recorded past `top` and shrink `analyze_toclear` back to `top`. -/
def lrRollback (s : Solver) (top : Nat) : Solver :=
  let cleared := s.analyze_toclear.drop top
  { s with
    seen := cleared.foldl (fun sn l => sn.set (litVar l) false) s.seen
    analyze_toclear := s.analyze_toclear.take top }

/-- The inner literal loop of `Solver::litRedundant`: `inl` is the
early `return false` (state already rolled back), `inr` continues with
the updated state and accumulated local partition. -/
def lrInner (abs top : Nat) : List Lit → Solver → Range → Solver ⊕ (Solver × Range)
  | [], s, lPart => .inr (s, lPart)
  | q :: rest, s, lPart =>
    if !(s.seen.getD (litVar q) false) then
      if level s (litVar q) > 0 then
        if reason s (litVar q) ≠ none ∧ (abstractLevel s (litVar q) &&& abs) ≠ 0 then
          let s := { s with
            seen := s.seen.set (litVar q) true
            analyze_stack := s.analyze_stack ++ [q]
            analyze_toclear := s.analyze_toclear ++ [q] }
          lrInner abs top rest s lPart
        else .inl (lrRollback s top)
      else if s.log_proof then
        lrInner abs top rest s (lPart.join (s.trail_part.getD (litVar q) none))
      else lrInner abs top rest s lPart
    else lrInner abs top rest s lPart

/-- The DFS worklist loop of `Solver::litRedundant`; returns the flag,
the state and the accumulated `lPart`. -/
def lrLoop (abs top : Nat) : Nat → Solver → Range → Option (Bool × Solver × Range)
  | 0, _, _ => none
  | fuel + 1, s, lPart =>
    match s.analyze_stack.getLast? with
    | none => some (true, s, lPart)
    | some pl =>
      match reason s (litVar pl) with
      | none => none
      | some cr =>
        let s := { s with analyze_stack := s.analyze_stack.dropLast }
        let c := getClause s cr
        let lPart := if s.log_proof then lPart.join c.part else lPart
        match lrInner abs top (c.lits.drop 1) s lPart with
        | .inl sFail => some (false, sFail, lPart)
        | .inr (s, lPart) => lrLoop abs top fuel s lPart

/-- The entry of `Solver::litRedundant`: clear the analysis stack and
seed it with `p`. -/
def lrInit (p : Lit) (s : Solver) : Solver := { s with analyze_stack := [p] }

/-- `Solver::litRedundant` (`Solver.cc`): deep clause-minimization check;
the accumulated partition is joined into the caller's `part` only on a
successful (true) return. -/
def litRedundant (fuel : Nat) (p : Lit) (abs : Nat) (part : Range) (s : Solver) :
    Option (Bool × Range × Solver) :=
  match lrLoop abs s.analyze_toclear.length fuel (lrInit p s) none with
  | none => none
  | some (false, sFail, _) => some (false, part, sFail)
  | some (true, s', lPart) =>
    some (true, (if s'.log_proof then part.join lPart else part), s')

/-- The `ccmin_mode == 2` compaction loop of `analyze`: a literal of the
learnt tail is dropped iff it has a reason and `litRedundant` succeeds. -/
def ccmin2 (fuel abs : Nat) : List Lit → List Lit × Range × Solver →
    Option (List Lit × Range × Solver)
  | [], acc => some acc
  | l :: rest, (kept, part, s) =>
    if reason s (litVar l) = none then ccmin2 fuel abs rest (kept ++ [l], part, s)
    else
      match litRedundant fuel l abs part s with
      | none => none
      | some (true, part', s') => ccmin2 fuel abs rest (kept, part', s')
      | some (false, part', s') => ccmin2 fuel abs rest (kept ++ [l], part', s')

/-- The `ccmin_mode == 1` keep-test of `analyze`: keep a literal unless
its reason tail is entirely seen-or-level-0. -/
def ccmin1Keep (s : Solver) (l : Lit) : Bool :=
  match reason s (litVar l) with
  | none => true
  | some cr =>
    ((getClause s cr).lits.drop 1).any
      (fun q => !(s.seen.getD (litVar q) false) && decide (level s (litVar q) > 0))

/-- The argmax scan of the backtrack-level block of `Solver::analyze`
(`for i = 2 ..`: move `max_i` to any strictly larger key). -/
def argmaxFold (f : Nat → Nat) (l : List Nat) (m0 : Nat) : Nat :=
  l.foldl (fun m i => if 2 ≤ i ∧ f i > f m then i else m) m0

/-- The backtrack-level selection block of `Solver::analyze`: for a
multi-literal learnt clause, swap a maximal-level tail literal into
position 1 and return its level. -/
def findBtLevel (s : Solver) (outl : List Lit) : List Lit × Nat :=
  if outl.length = 1 then (outl, 0)
  else
    let max_i := argmaxFold (fun j => level s (litVar (outl.getD j 0)))
      (List.range outl.length) 1
    let p := outl.getD max_i 0
    let outl := (outl.set max_i (outl.getD 1 0)).set 1 p
    (outl, level s (litVar p))

/-- The conflict-clause simplification dispatch of `Solver::analyze`
(`ccmin_mode` 2 = deep via `litRedundant`, 1 = basic, 0 = off). -/
def ccminApply (fuel : Nat) (outl : List Lit) (part : Range) (s : Solver) :
    Option (List Lit × Range × Solver) :=
  if s.ccmin_mode = 2 then
    let abs := (outl.drop 1).foldl (fun a l => a ||| abstractLevel s (litVar l)) 0
    ccmin2 fuel abs (outl.drop 1) (outl.take 1, part, s)
  else if s.ccmin_mode = 1 then
    some (outl.take 1 ++ (outl.drop 1).filter (ccmin1Keep s), part, s)
  else some (outl, part, s)

/-- `Solver::analyze` (`Solver.cc`): first-UIP conflict analysis with
clause minimization, producing the learnt clause, the backtrack level
and the joined partition. -/
def analyze (fuel : Nat) (confl : Nat) (s : Solver) :
    Option (List Lit × Nat × Range × Solver) :=
  let dl := decisionLevel s
  let part0 : Range := if s.log_proof then (getClause s confl).part else none
  match analyzeLoop dl fuel (some confl) none (s.trail.length - 1) (s, [0], 0, part0) with
  | none => none
  | some (s, outl, p, part) =>
    let outl := outl.set 0 (litNeg p)
    let s := { s with analyze_toclear := outl }
    match ccminApply fuel outl part s with
    | none => none
    | some (outl2, part2, s) =>
      let s := { s with
        max_literals := s.max_literals + outl.length
        tot_literals := s.tot_literals + outl2.length }
      let r := findBtLevel s outl2
      let s := { s with seen := s.analyze_toclear.foldl (fun sn l => sn.set (litVar l) false) s.seen }
      some (r.1, r.2, part2, s)

/-- `Solver::analyzeFinal` (`Solver.cc`): express the final conflict in
terms of the decisions (assumptions), stored into `conflict`. -/
def analyzeFinal (s : Solver) (p : Lit) : Solver :=
  let s := { s with conflict := [p] }
  if decisionLevel s = 0 then s
  else
    let s := { s with seen := s.seen.set (litVar p) true }
    let lim := s.trail_lim.getD 0 0
    let s := (List.range' lim (s.trail.length - lim)).reverse.foldl
      (fun s i =>
        let x := litVar (s.trail.getD i 0)
        if s.seen.getD x false then
          let s :=
            match reason s x with
            | none => { s with conflict := s.conflict ++ [litNeg (s.trail.getD i 0)] }
            | some cr =>
              let c := getClause s cr
              let sn := (c.lits.drop 1).foldl
                (fun (sn : List Bool) l =>
                  if level s (litVar l) > 0 then sn.set (litVar l) true else sn)
                s.seen
              { s with seen := sn }
          { s with seen := s.seen.set x false }
        else s)
      s
    { s with seen := s.seen.set (litVar p) false }

/-- The comparator `reduceDB_lt` of `Solver.cc`: "lower is worse" —
true iff `x` ranks before `y` (non-binary, and `y` binary or less
active). -/
def reduceDB_lt (s : Solver) (x y : Nat) : Bool :=
  decide ((getClause s x).size > 2) &&
    (decide ((getClause s y).size = 2) || decide ((getClause s x).act < (getClause s y).act))

/-- Modelled from the spec: the sort of `learnts` by `reduceDB_lt`
(`mtl/Sort.h` is not in `src/`); any order consistent with the comparator
is produced, here by merge sort. -/
def sortLearnts (s : Solver) : List Nat :=
  sortLe (fun x y => !reduceDB_lt s y x) s.learnts

/-- The compaction loop of `Solver::reduceDB` over the sorted learnt
list (with positions): remove non-binary unlocked clauses from the first
half or with activity below `lim`, keep the rest. -/
def reduceDBLoop (n : Nat) (lim : Dbl) :
    List (Nat × Nat) → Solver → List Nat → Solver × List Nat
  | [], s, kept => (s, kept)
  | (i, cr) :: rest, s, kept =>
    let c := getClause s cr
    if c.size > 2 ∧ locked s cr = false ∧ (i < n / 2 ∨ c.act < lim) then
      reduceDBLoop n lim rest (removeClause s cr) kept
    else reduceDBLoop n lim rest s (kept ++ [cr])

/-- Modelled from the spec: `garbageCollect` relocates every reachable
reference consistently into a fresh arena (§4.1, §9); since `CRef`s are
opaque handles and the handle-to-clause map is preserved by `relocAll`,
compaction is a memory-layout concern and the model only resets the
wasted counter. -/
def garbageCollect (s : Solver) : Solver := { s with wasted := 0 }

/-- Modelled from the spec: arena size in words (allocator internals are
in the missing headers). -/
def caSize (s : Solver) : Nat := s.ca.foldl (fun a c => a + c.size + 1) 0

/-- Modelled from the spec: `checkGarbage` triggers compaction when the
wasted ratio exceeds `garbage_frac` (default `HUGE_VAL`, i.e. never). -/
def checkGarbage (s : Solver) : Solver :=
  match s.garbage_frac with
  | none => s
  | some f => if Dbl.ofNat s.wasted > f * Dbl.ofNat (caSize s) then garbageCollect s else s

/-- `Solver::reduceDB` (`Solver.cc`). -/
def reduceDB (s : Solver) : Solver :=
  let n := s.learnts.length
  let extra_lim : Dbl := s.cla_inc / Dbl.ofNat n
  let sorted := sortLearnts s
  let r := reduceDBLoop n extra_lim sorted.enum s []
  let s := { r.1 with learnts := r.2 }
  checkGarbage s

/-- The in-place filter of `Solver::removeSatisfied` over one clause
list. -/
def removeSatisfiedLoop : List Nat → Solver → List Nat → Solver × List Nat
  | [], s, kept => (s, kept)
  | cr :: rest, s, kept =>
    if satisfied s (getClause s cr) then removeSatisfiedLoop rest (removeClause s cr) kept
    else removeSatisfiedLoop rest s (kept ++ [cr])

/-- `Solver::rebuildOrderHeap` (`Solver.cc`): rebuild the heap from the
unassigned decision variables. -/
def rebuildOrderHeap (s : Solver) : Solver :=
  let vs := (List.range (nVars s)).filter
    (fun v => s.decision.getD v false && decide (valueVar s v = .u))
  { s with order_heap := vs }

/-- `Solver::simplify` (`Solver.cc`): top-level simplification removing
satisfied clauses. -/
def simplify (fuel : Nat) (s : Solver) : Option (Bool × Solver) :=
  if !s.ok then some (false, { s with ok := false })
  else
    match propagate fuel false s with
    | none => none
    | some (some _, s) => some (false, { s with ok := false })
    | some (none, s) =>
      if (nAssigns s : Int) = s.simpDB_assigns ∨ s.simpDB_props > 0 then some (true, s)
      else
        let r1 := removeSatisfiedLoop s.learnts s []
        let s := { r1.1 with learnts := r1.2 }
        let s :=
          if s.remove_satisfied then
            let r2 := removeSatisfiedLoop s.clauses s []
            { r2.1 with clauses := r2.2 }
          else s
        let s := checkGarbage s
        let s := rebuildOrderHeap s
        let s := { s with
          simpDB_assigns := (nAssigns s : Int)
          simpDB_props := ((s.clauses_literals + s.learnts_literals : Nat) : Int) }
        some (true, s)

/-- The activity-based extraction loop of `Solver::pickBranchLit`: pop
heap entries until an unassigned decision variable appears. -/
def pickLoop : Nat → Option Var → Solver → Option Var × Solver
  | 0, next, s => (next, s)
  | fuel + 1, next, s =>
    let bad :=
      match next with
      | none => true
      | some v => decide (valueVar s v ≠ .u) || !(s.decision.getD v false)
    if bad then
      match heapRemoveMin s with
      | none => (none, s)
      | some (x, s) => pickLoop fuel (some x) s
    else (next, s)

/-- `Solver::pickBranchLit` (`Solver.cc`): optional random pick, then
activity-based extraction, then polarity selection. -/
def pickBranchLit (s : Solver) : Option Lit × Solver :=
  let d1 := drand s.random_seed
  let s := { s with random_seed := d1.2 }
  let (next, s) :=
    if d1.1 < s.random_var_freq ∧ s.order_heap ≠ [] then
      let ri := irand s.random_seed s.order_heap.length
      let s := { s with random_seed := ri.2 }
      let v := s.order_heap.getD ri.1.toNat 0
      let s :=
        if valueVar s v = .u ∧ s.decision.getD v false then
          { s with rnd_decisions := s.rnd_decisions + 1 }
        else s
      (some v, s)
    else (none, s)
  let r := pickLoop (s.order_heap.length + 2) next s
  match r.1 with
  | none => (none, r.2)
  | some v =>
    let s := r.2
    if s.rnd_pol then
      let d2 := drand s.random_seed
      (some (mkLit v (decide (d2.1 < 1 / 2))), { s with random_seed := d2.2 })
    else (some (mkLit v (s.polarity.getD v false)), s)

/-- `Solver::progressEstimate` (`Solver.cc`). -/
def progressEstimate (s : Solver) : Dbl :=
  let F : Dbl := 1 / Dbl.ofNat (nVars s)
  ((List.range (decisionLevel s + 1)).foldl
    (fun acc i =>
      let beg := if i = 0 then 0 else s.trail_lim.getD (i - 1) 0
      let stop := if i = decisionLevel s then s.trail.length else s.trail_lim.getD i 0
      acc + F ^ i * (Dbl.ofNat stop - Dbl.ofNat beg))
    0) / Dbl.ofNat (nVars s)

/-- The assumption-handling loop of `Solver::search`: `inl` is the
assumption-conflict exit (after `analyzeFinal`), `inr` carries the next
decision literal (if an unassigned assumption was found). -/
def assumpLoop : Nat → Solver → Solver ⊕ (Option Lit × Solver)
  | 0, s => .inr (none, s)
  | fuel + 1, s =>
    if decisionLevel s < s.assumptions.length then
      let p := s.assumptions.getD (decisionLevel s) 0
      if value s p = .t then assumpLoop fuel (newDecisionLevel s)
      else if value s p = .f then .inl (analyzeFinal s (litNeg p))
      else .inr (some p, s)
    else .inr (none, s)

/-- The conflict branch of one `Solver::search` iteration after a
non-root conflict: learn, backtrack, record, enqueue, decay, adjust. -/
def searchHandleConflict (fuel : Nat) (confl : Nat) (s : Solver) : Option Solver :=
  match analyze fuel confl s with
  | none => none
  | some (learnt, btlevel, part, s) =>
    let s := cancelUntil s btlevel
    let s :=
      if learnt.length = 1 then
        if s.log_proof then
          let (cr, s) := allocClause s learnt true
          let s := { s with proof := s.proof ++ [cr] }
          let s := setClause s cr { getClause s cr with part := part }
          uncheckedEnqueue s (learnt.getD 0 0) (some cr)
        else uncheckedEnqueue s (learnt.getD 0 0) none
      else
        let (cr, s) := allocClause s learnt true
        let s := if s.log_proof then { s with proof := s.proof ++ [cr] } else s
        let s := if s.log_proof then setClause s cr { getClause s cr with part := part } else s
        let s := { s with learnts := s.learnts ++ [cr] }
        let s := attachClause s cr
        let s := claBumpActivity s cr
        uncheckedEnqueue s (learnt.getD 0 0) (some cr)
    let s := claDecayActivity (varDecayActivity s)
    let s := { s with learntsize_adjust_cnt := s.learntsize_adjust_cnt - 1 }
    let s :=
      if s.learntsize_adjust_cnt == 0 then
        let confl2 := s.learntsize_adjust_confl * s.learntsize_adjust_inc
        { s with
          learntsize_adjust_confl := confl2
          learntsize_adjust_cnt := Dbl.trunc confl2
          max_learnts := s.max_learnts * s.learntsize_inc }
      else s
    some s

/-- The `for (;;)` loop of `Solver::search` (`Solver.cc`). -/
def searchLoop (nof_conflicts : Int) : Nat → Int → Solver → Option (LBool × Solver)
  | 0, _, _ => none
  | fuel + 1, conflictC, s =>
    match propagate fuel false s with
    | none => none
    | some (some confl, s) =>
      let s := { s with conflicts := s.conflicts + 1 }
      let conflictC := conflictC + 1
      if decisionLevel s = 0 then
        let s := if s.log_proof then { s with proof := s.proof ++ [confl] } else s
        some (.f, s)
      else
        match searchHandleConflict fuel confl s with
        | none => none
        | some s => searchLoop nof_conflicts fuel conflictC s
    | some (none, s) =>
      if (nof_conflicts ≥ 0 ∧ conflictC ≥ nof_conflicts) ∨ withinBudget s = false then
        let s := { s with progress_estimate := progressEstimate s }
        some (.u, cancelUntil s 0)
      else
        match (if decisionLevel s = 0 then simplify fuel s else some (true, s)) with
        | none => none
        | some (false, s) => some (.f, s)
        | some (true, s) =>
          let s :=
            if Dbl.ofInt ((s.learnts.length : Int) - (nAssigns s : Int)) ≥ s.max_learnts then
              reduceDB s
            else s
          match assumpLoop (s.assumptions.length + 1) s with
          | .inl s => some (.f, s)
          | .inr (some next, s) =>
            let s := newDecisionLevel s
            searchLoop nof_conflicts fuel conflictC (uncheckedEnqueue s next none)
          | .inr (none, s) =>
            let s := { s with decisions := s.decisions + 1 }
            let r := pickBranchLit s
            match r.1 with
            | none => some (.t, r.2)
            | some next =>
              let s := newDecisionLevel r.2
              searchLoop nof_conflicts fuel conflictC (uncheckedEnqueue s next none)

/-- Integer power on rationals allowing a negative exponent (`pow`). -/
def ratPowInt (y : Dbl) (i : Int) : Dbl :=
  if 0 ≤ i then y ^ i.toNat else (1 / y) ^ (-i).toNat

/-- The first loop of `luby`: find the finite subsequence containing
index `x`. -/
def lubyLoop1 : Nat → Nat → Nat → Nat → Nat × Nat
  | 0, size, seq, _ => (size, seq)
  | fuel + 1, size, seq, x =>
    if size < x + 1 then lubyLoop1 fuel (2 * size + 1) (seq + 1) x else (size, seq)

/-- The second loop of `luby`: descend into the subsequence. -/
def lubyLoop2 : Nat → Nat → Int → Nat → Nat × Int × Nat
  | 0, size, seq, x => (size, seq, x)
  | fuel + 1, size, seq, x =>
    if size - 1 ≠ x then lubyLoop2 fuel ((size - 1) / 2) (seq - 1) (x % ((size - 1) / 2))
    else (size, seq, x)

/-- `luby` (`Solver.cc`): the Luby restart-sequence value. -/
def luby (y : Dbl) (x : Nat) : Dbl :=
  let r1 := lubyLoop1 (x + 2) 1 0 x
  let r2 := lubyLoop2 (r1.1 + 1) r1.1 (r1.2 : Int) x
  ratPowInt y r2.2.1

/-- The restart loop of `Solver::solve_`. -/
def solveLoop : Nat → Nat → Solver → Option (LBool × Solver)
  | 0, _, _ => none
  | fuel + 1, curr_restarts, s =>
    let rest_base :=
      if s.luby_restart then luby s.restart_inc curr_restarts
      else s.restart_inc ^ curr_restarts
    match searchLoop (Dbl.trunc (rest_base * Dbl.ofNat s.restart_first)) fuel 0 s with
    | none => none
    | some (status, s) =>
      if withinBudget s = false then some (status, s)
      else if status = .u then solveLoop fuel (curr_restarts + 1) s
      else some (status, s)

/-- The entry of `Solver::solve_`: clear `model` and `conflict`. -/
def solveClear (s : Solver) : Solver := { s with model := [], conflict := [] }

/-- The pre-search initialisation of `Solver::solve_`. -/
def solvePrep (s : Solver) : Solver :=
  { s with
    solves := s.solves + 1
    max_learnts := Dbl.ofNat (nClauses s) * s.learntsize_factor
    learntsize_adjust_confl := s.learntsize_adjust_start_confl
    learntsize_adjust_cnt := Dbl.trunc s.learntsize_adjust_start_confl }

/-- The post-search bookkeeping of `Solver::solve_`: on Sat extend and
copy the model (`model[i] = value(i)` for every variable), on Unsat with
no recorded assumption conflict set `ok = false`. -/
def solveModelUpdate (status : LBool) (s : Solver) : Solver :=
  if status = .t then { s with model := (List.range (nVars s)).map (valueVar s) }
  else if status = .f ∧ s.conflict.length = 0 then { s with ok := false }
  else s

/-- `Solver::solve_` (`Solver.cc`): drive `search` through restarts; on
Sat extend and copy the model, on Unsat without an assumption conflict
clear `ok`; finally backtrack to the root. -/
def solveInternal (fuel : Nat) (s0 : Solver) : Option (LBool × Solver) :=
  if !(solveClear s0).ok then some (.f, solveClear s0)
  else
    match solveLoop fuel 0 (solvePrep (solveClear s0)) with
    | none => none
    | some (status, s1) => some (status, cancelUntil (solveModelUpdate status s1) 0)

/-- Set the `core` flag of the clause at `cr` (`Clause::core(1)`). -/
def setCore (s : Solver) (cr : Nat) : Solver :=
  setClause s cr { getClause s cr with core := true }

/-- `ca[reason(x)].core(1)`: mark the reason of `x` core (variables
without a reason are skipped; the source would index the arena with
`CRef_Undef` there). -/
def markReasonCore (s : Solver) (x : Var) : Solver :=
  match reason s x with
  | some r => setCore s r
  | none => s

/-- The enqueue stage of `Solver::validateLemma`: go to decision level 1
and enqueue the negation of every lemma literal. -/
def vlEnqueueNeg (cr : Nat) (s : Solver) : Solver :=
  (getClause s cr).lits.foldl (fun s l => (enqueue s (litNeg l) none).2) (newDecisionLevel s)

/-- The state handed to `propagate` inside `Solver::validateLemma`:
after the negation enqueues, at decision level 2. -/
def vlPre (cr : Nat) (s : Solver) : Solver := newDecisionLevel (vlEnqueueNeg cr s)

/-- One step (trail position `i`) of the core-marking walk of
`Solver::validateLemma`: unseen positions are skipped; otherwise the
reason is marked core and its tail literals are queued (level > 1) or
their reasons marked core (level ≤ 0). -/
def vlMarkStep (s : Solver) (i : Nat) : Solver :=
  let x := litVar (s.trail.getD i 0)
  if s.seen.getD x false then
    let s := { s with seen := s.seen.set x false }
    match reason s x with
    | none => s
    | some rc =>
      let s := setCore s rc
      let c := getClause s rc
      (c.lits.drop 1).foldl
        (fun s l =>
          let y := litVar l
          if level s y > 1 then { s with seen := s.seen.set y true }
          else if level s y ≤ 0 then markReasonCore s y
          else s)
        s
  else s

/-- The reset tail of `Solver::validateLemma`: `cancelUntil(0)` and
`ok = true`. -/
def vlFinish (s : Solver) : Solver := { cancelUntil s 0 with ok := true }

/-- `Solver::validateLemma` (`Solver.cc`): re-check one core lemma by
reverse unit propagation at decision levels 1 and 2; failure (no
conflict) returns `false` without restoring the state, success marks the
conflict closure core, cancels to level 0 and re-establishes `ok`. -/
def validateLemma (fuel : Nat) (cr : Nat) (s : Solver) : Option (Bool × Solver) :=
  match propagate fuel false (vlPre cr s) with
  | none => none
  | some (none, s) => some (false, s)
  | some (some confl, s) =>
    let s := setCore s confl
    let conflC := getClause s confl
    let s := conflC.lits.foldl
      (fun s l =>
        let x := litVar l
        if level s x > 1 then { s with seen := s.seen.set x true }
        else if level s x ≤ 0 then markReasonCore s x
        else s)
      s
    let lim1 := s.trail_lim.getD 1 0
    let s := (List.range' lim1 (s.trail.length - lim1)).reverse.foldl vlMarkStep s
    some (true, vlFinish s)

/-- The initial conflict-clause scan of `Solver::validate`: every
literal of the last proof entry must be False; reasons are marked core
along the way, and a non-False literal aborts with `false`. -/
def vInitLoop : List Lit → Solver → Bool × Solver
  | [], s => (true, s)
  | l :: rest, s =>
    if value s l ≠ .f then (false, s)
    else vInitLoop rest (markReasonCore s (litVar l))

/-- The BCP-undo loop of `Solver::validate` for a locked clause: pop
trail literals above `c[0]`, unassigning them and propagating core marks
through core reasons; returns the new `trail_sz` (position of `c[0]`
plus one).  `none` models running off the bottom of the trail or a
missing reason (assertions of the source). -/
def vUndoLoop (c0 : Lit) : Nat → Solver → Option (Nat × Solver)
  | 0, _ => none
  | tsz + 1, s =>
    let topLit := s.trail.getD tsz 0
    if topLit ≠ c0 then
      let x := litVar topLit
      let s := { s with assigns := s.assigns.set x .u }
      let s := insertVarOrder s x
      match reason s x with
      | none => none
      | some r =>
        let s :=
          if (getClause s r).core then
            ((getClause s r).lits.drop 1).foldl (fun s l => markReasonCore s (litVar l)) s
          else s
        vUndoLoop c0 tsz s
    else some (tsz + 1, s)

/-- The backward proof walk of `Solver::validate` over the entries
`proof[size-2 .. 0]`: resurrect deleted clauses, roll back learned ones
(undoing BCP for locked clauses), and re-check core lemmas. -/
def validateLoop (fuel : Nat) : List Nat → Nat → Solver → Option (Bool × Nat × Solver)
  | [], tsz, s => some (true, tsz, s)
  | cr :: rest, tsz, s =>
    let c := getClause s cr
    if c.mark = 1 then
      let s := setClause s cr { c with mark := 0 }
      let s :=
        if c.size > 1 then attachClause s cr
        else (enqueue s (c.get 0) (some cr)).2
      validateLoop fuel rest tsz s
    else
      let undone : Option (Nat × Solver) :=
        if locked s cr then
          match vUndoLoop (c.get 0) tsz s with
          | none => none
          | some (tsz2, s) =>
            let x := litVar (c.get 0)
            let s := { s with assigns := s.assigns.set x .u }
            let s := insertVarOrder s x
            some (tsz2 - 1, s)
        else some (tsz, s)
      match undone with
      | none => none
      | some (tsz, s) =>
        let s := if c.size > 1 then detachClause s cr false else s
        let s := setClause s cr { getClause s cr with mark := 1 }
        if (getClause s cr).core then
          let s := { s with trail := s.trail.take tsz }
          let s := { s with qhead := s.trail.length }
          let s :=
            if s.trail_lim.length > 0 then
              { s with trail_lim := s.trail_lim.set 0 s.trail.length }
            else s
          match validateLemma fuel cr s with
          | none => none
          | some (false, s) => some (false, tsz, s)
          | some (true, s) => validateLoop fuel rest tsz s
        else validateLoop fuel rest tsz s

/-- The final core-closure walk of `Solver::validate` over the remaining
trail (every literal there must have a reason). -/
def vFinalLoop : List Nat → Solver → Option Solver
  | [], s => some s
  | i :: rest, s =>
    match reason s (litVar (s.trail.getD i 0)) with
    | none => none
    | some rc =>
      let s :=
        if (getClause s rc).core then
          ((getClause s rc).lits.drop 1).foldl (fun s l => markReasonCore s (litVar l)) s
        else s
      vFinalLoop rest s

/-- `Solver::validate` (`Solver.cc`): check the recorded proof backwards,
marking core clauses and re-validating each core lemma.  The asserted
preconditions (`log_proof`, `!ok`, non-empty proof) yield `none` when
violated. -/
def validate (fuel : Nat) (s : Solver) : Option (Bool × Solver) :=
  if !s.log_proof ∨ s.ok = true then none
  else
    match s.proof.getLast? with
    | none => none
    | some lastCr =>
      let s := setCore s lastCr
      let r := vInitLoop (getClause s lastCr).lits s
      if r.1 = false then some (false, r.2)
      else
        let s := r.2
        let tsz := s.trail.length
        let s := { s with ok := true }
        match validateLoop fuel s.proof.dropLast.reverse tsz s with
        | none => none
        | some (false, _, s) => some (false, s)
        | some (true, tsz, s) =>
          let s := { s with trail := s.trail.take tsz }
          let s := { s with qhead := s.trail.length }
          let s :=
            if s.trail_lim.length > 0 then
              { s with trail_lim := s.trail_lim.set 0 s.trail.length }
            else s
          match vFinalLoop (List.range s.trail.length).reverse s with
          | none => none
          | some s => some (true, s)

/-- `ProofVisitor::visitResolvent(Lit, Lit, CRef)` as an event append. -/
def visitResolventE (v : PVisitor) (parent p1 : Lit) (p2 : Nat) : PVisitor :=
  { v with events := v.events ++ [.binRes parent p1 p2] }

/-- `ProofVisitor::visitChainResolvent(Lit)`: records the current chain
buffers. -/
def visitChainResolventLit (v : PVisitor) (parent : Lit) : PVisitor :=
  { v with events := v.events ++ [.chainLit parent v.chainClauses v.chainPivots] }

/-- `ProofVisitor::visitChainResolvent(CRef)` (`none` encodes
`CRef_Undef`, the empty clause). -/
def visitChainResolventC (v : PVisitor) (parent : Option Nat) : PVisitor :=
  { v with events := v.events ++ [.chainCRef parent v.chainClauses v.chainPivots] }

/-- Inclusive integer range `[lo, hi]` (empty when `hi < lo`). -/
def intRangeIncl (lo hi : Int) : List Int :=
  if hi < lo then [] else (List.range ((hi - lo).toNat + 1)).map (fun k => lo + (k : Int))

/-- Trail access at a (possibly negative) `int` index; out-of-range
access is undefined behaviour in the source and defaults here. -/
def trailGetI (s : Solver) (i : Int) : Lit :=
  if 0 ≤ i ∧ i < (s.trail.length : Int) then s.trail.getD i.toNat 0 else 0

/-- `Solver::labelLevel0` (`Solver.cc`): walk the trail from the `start`
cursor to `trail.size()-1`, emitting a binary resolvent for binary
reasons and a chain resolvent for larger reasons; finally set
`start = trail.size() - 1`. -/
def labelLevel0 (s : Solver) (v : PVisitor) : Solver × PVisitor :=
  let size : Int := (s.trail.length : Int) - 1
  let v := (intRangeIncl s.start size).foldl
    (fun v i =>
      let tl := trailGetI s i
      let x := litVar tl
      match reason s x with
      | none => v
      | some rc =>
        let c := getClause s rc
        if c.size = 1 then v
        else if c.size = 2 then visitResolventE v tl (litNeg (c.get 1)) rc
        else
          let v := { v with chainClauses := [rc], chainPivots := (c.lits.drop 1).map litNeg }
          visitChainResolventLit v tl)
    v
  ({ s with start := size }, v)

/-- `mapVar` (`Solver.cc`): allocate a dense index for `x` on first use. -/
def mapVar (x : Var) (mp : List Int) (mx : Nat) : Nat × List Int × Nat :=
  if mp.length ≤ x ∨ mp.getD x (-1) = -1 then
    let mp := mp ++ List.replicate (x + 1 - mp.length) (-1 : Int)
    let mp := mp.set x (mx : Int)
    (mx, mp, mx + 1)
  else ((mp.getD x (-1)).toNat, mp, mx)

/-- One printed literal of `Solver::toDimacs(FILE*, Clause&, ...)`. -/
def dimacsLitStr (sgn : Bool) (m : Nat) : String :=
  (if sgn then "-" else "") ++ toString (m + 1) ++ " "

/-- `Solver::toDimacs(FILE*, Clause&, vec<Var>&, Var&)` (`Solver.cc`):
print the non-False literals of an unsatisfied clause. -/
def toDimacsClause (s : Solver) (c : Clause) (mp : List Int) (mx : Nat) :
    List String × List Int × Nat :=
  if satisfied s c then ([], mp, mx)
  else
    let r := c.lits.foldl
      (fun (acc : List String × List Int × Nat) l =>
        if value s l ≠ .f then
          let m := mapVar (litVar l) acc.2.1 acc.2.2
          (acc.1 ++ [dimacsLitStr (litSign l) m.1], m.2.1, m.2.2)
        else acc)
      ([], mp, mx)
    (r.1 ++ ["0\n"], r.2.1, r.2.2)

/-- `Solver::toDimacs(FILE*, const vec<Lit>& assumps)` (`Solver.cc`),
with the emitted `fprintf` strings collected in order.  Note that the
body reads the member `assumptions`, never the `assumps` parameter. -/
def toDimacs (s : Solver) (assumps : List Lit) : List String :=
  if !s.ok then ["p cnf 1 2\n", "1 0\n", "-1 0\n"]
  else
    let cnt := (s.clauses.filter (fun cr => !satisfied s (getClause s cr))).length
    let r := s.clauses.foldl
      (fun (acc : List Int × Nat) cr =>
        if !satisfied s (getClause s cr) then
          (getClause s cr).lits.foldl
            (fun (acc : List Int × Nat) l =>
              if value s l ≠ .f then
                let m := mapVar (litVar l) acc.1 acc.2
                (m.2.1, m.2.2)
              else acc)
            acc
        else acc)
      ([], 0)
    let cnt := cnt + s.assumptions.length
    let header := "p cnf " ++ toString r.2 ++ " " ++ toString cnt ++ "\n"
    let r2 := s.assumptions.foldl
      (fun (acc : List String × List Int × Nat) p =>
        let m := mapVar (litVar p) acc.2.1 acc.2.2
        (acc.1 ++ [(if litSign p then "-" else "") ++ toString (m.1 + 1) ++ " 0\n"],
          m.2.1, m.2.2))
      ([header], r.1, r.2)
    let r3 := s.clauses.foldl
      (fun (acc : List String × List Int × Nat) cr =>
        let t := toDimacsClause s (getClause s cr) acc.2.1 acc.2.2
        (acc.1 ++ t.1, t.2.1, t.2.2))
      r2
    r3.1

/-! ### Proof-support definitions -/

/-- Fold marking the variables of the given literals seen. -/
def setAllTrue (ls : List Lit) (sn : List Bool) : List Bool :=
  ls.foldl (fun sn l => sn.set (litVar l) true) sn

/-- Fold clearing the seen marks of the variables of the given literals. -/
def zeroAll (ls : List Lit) (sn : List Bool) : List Bool :=
  ls.foldl (fun sn l => sn.set (litVar l) false) sn

/-- Invariant of the `litRedundant` DFS relative to the entry state `s0`:
`analyze_toclear` has grown by a suffix `Δ` of literals whose variables
were unseen at entry, and `seen` is the entry array with exactly those
variables marked. -/
def LrInv (s0 : Solver) (top : Nat) (s : Solver) : Prop :=
  top = s0.analyze_toclear.length ∧
  ∃ d, s.analyze_toclear = s0.analyze_toclear ++ d ∧
    s.seen = setAllTrue d s0.seen ∧
    ∀ l ∈ d, s0.seen.getD (litVar l) false = false

/-- The parts of the solver state that the `reduceDB` removal conditions
read, preserved by `removeClause` on unlocked clauses: assignments,
variable data, and each clause's literals and activity. -/
def SameCore (s0 s : Solver) : Prop :=
  s.assigns = s0.assigns ∧ s.vardata = s0.vardata ∧
  ∀ j, (getClause s j).lits = (getClause s0 j).lits ∧ (getClause s j).act = (getClause s0 j).act

/-- Modelled from the spec: the solver invariant that the reason clause
of an assigned variable has that variable's satisfied literal in first
position (this is what makes the `locked` test of the missing `Solver.h`
mean "reason of a currently assigned literal"). -/
def ReasonInv (s : Solver) : Prop :=
  ∀ v, valueVar s v ≠ .u → ∀ cr, reason s v = some cr →
    litVar ((getClause s cr).get 0) = v ∧ value s ((getClause s cr).get 0) = .t

/-! ### Concrete scenario states -/

/-- Two decision variables in a fresh solver (proof logging on). -/
def cexBase : Solver := (newVar (newVar {} true true).2 true true).2

/-- After `add_clause (¬x0 ∨ x1)` with partition `[1,1]`. -/
def cexS1 : Solver := ((addClause_ 10 [1, 2] (some (1, 1)) cexBase).getD (false, default)).2

/-- After additionally `add_clause (¬x0 ∨ ¬x1)`. -/
def cexS2 : Solver := ((addClause_ 10 [1, 3] (some (1, 1)) cexS1).getD (false, default)).2

/-- The result of `add_clause (x0)` on `cexS2`: the level-0 enqueue of
`x0` propagates `x1` and then conflicts on `(¬x0 ∨ ¬x1)`. -/
def cexAddRes : Option (Bool × Solver) := addClause_ 10 [0] (some (1, 1)) cexS2

/-- The solver state after the conflicting `add_clause (x0)`. -/
def cexS3 : Solver := (cexAddRes.getD (false, default)).2

/-- `solve()` on the conflicting state (returns Unsat immediately). -/
def cexSolveRes : Option (LBool × Solver) := solveInternal 10 cexS3

/-- The state after that `solve()` call. -/
def cexSolved : Solver := (cexSolveRes.getD (.u, default)).2

/-- Two variables created with `dvar = false` (not decision-eligible). -/
def satBase : Solver := (newVar (newVar {} true false).2 true false).2

/-- After `add_clause (x0 ∨ x1)`: neither variable will ever be decided. -/
def satS1 : Solver := ((addClause_ 10 [0, 2] (some (1, 1)) satBase).getD (false, default)).2

/-- `solve()` on `satS1`: Sat with both variables unassigned. -/
def satSolveRes : Option (LBool × Solver) := solveInternal 20 satS1

/-- The state after that Sat `solve()` call. -/
def satSolved : Solver := (satSolveRes.getD (.u, default)).2

/-- A level-0 state for `labelLevel0`: trail `[x0, x1]` where `x0` has a
unit reason and `x1` a binary reason. -/
def lblS0 : Solver :=
  { assigns := [.t, .t, .t]
    vardata := [⟨some 1, 0⟩, ⟨some 0, 0⟩, ⟨some 2, 0⟩]
    ca := [⟨[2, 1], false, 0, false, 0, none⟩, ⟨[0], false, 0, false, 0, none⟩,
           ⟨[4, 3], false, 0, false, 0, none⟩]
    trail := [0, 2]
    start := 0 }

/-- First `labelLevel0` call on `lblS0` (fresh visitor). -/
def lblCall1 : Solver × PVisitor := labelLevel0 lblS0 {}

/-- The trail has since grown by `x2` (binary reason `(x2 ∨ ¬x1)`). -/
def lblS1 : Solver := { lblCall1.1 with trail := [0, 2, 4] }

/-- Second `labelLevel0` call, continuing with the same visitor. -/
def lblCall2 : Solver × PVisitor := labelLevel0 lblS1 lblCall1.2

/-- A state for `validateLemma`: one unassigned variable, the core unit
lemma `(x0)` stored at arena index 0; propagating its negation yields no
conflict. -/
def vlemS : Solver :=
  { assigns := [.u]
    vardata := [{}]
    ca := [⟨[0], false, 0, true, 0, none⟩]
    watches := [[], []]
    dirty := [false, false] }

/-- A state for `reduceDB`: a single ternary learnt clause of activity 0
(below `cla_inc / 1`), unlocked — it gets removed. -/
def redS : Solver :=
  { assigns := [.u, .u, .u]
    vardata := [{}, {}, {}]
    ca := [⟨[0, 2, 4], true, 0, false, 0, none⟩]
    learnts := [0]
    watches := [[], [], [], [], [], []]
    dirty := List.replicate 6 false }

/-- A conflict state for `analyze`: decisions `x0@1`, `x1@2`, forced
`x2@2` by `(x2 ∨ ¬x1)`, conflicting clause `(¬x2 ∨ ¬x0)` at index 1. -/
def anaS : Solver :=
  { assigns := [.t, .t, .t]
    vardata := [⟨none, 1⟩, ⟨none, 2⟩, ⟨some 0, 2⟩]
    activity := [0, 0, 0]
    seen := [false, false, false]
    decision := [true, true, true]
    trail := [0, 2, 4]
    trail_lim := [0, 1]
    ca := [⟨[4, 3], false, 0, false, 0, some (1, 1)⟩,
           ⟨[5, 1], false, 0, false, 0, some (2, 2)⟩]
    trail_part := [none, none, none] }

/-- A state for `litRedundant`: `x0` has reason `(x0 ∨ ¬x1 ∨ ¬x2)`,
`x1` has a reason (so it is pushed), `x2` is a decision (no reason), so
the DFS fails after having marked `x1`. -/
def lrS : Solver :=
  { seen := [true, false, false]
    vardata := [⟨some 0, 1⟩, ⟨some 1, 1⟩, ⟨none, 1⟩]
    ca := [⟨[0, 3, 5], false, 0, false, 0, some (3, 3)⟩,
           ⟨[2, 5], false, 0, false, 0, some (4, 4)⟩]
    analyze_toclear := [] }

/-- A contradictory solver (`ok = false`) whose single variable is
assigned True at level 0. -/
def okFalseS : Solver := { ok := false, assigns := [.t], vardata := [{}] }

/-- A consistent solver whose single variable is assigned True at level
0 (its unit reason clause sits at index 0). -/
def okTrueS : Solver :=
  { assigns := [.t]
    vardata := [⟨some 0, 0⟩]
    ca := [⟨[0], false, 0, false, 0, some (1, 1)⟩]
    trail := [0] }

/-! ### Support lemmas -/

theorem mem_insertLe {α : Type} (le : α → α → Bool) (a x : α) (l : List α) :
    x ∈ insertLe le a l ↔ x = a ∨ x ∈ l := by
  induction l with
  | nil => simp [insertLe]
  | cons b t ih =>
    unfold insertLe
    split
    · simp
    · simp only [List.mem_cons, ih]
      tauto

theorem mem_sortLe {α : Type} (le : α → α → Bool) (x : α) (l : List α) :
    x ∈ sortLe le l ↔ x ∈ l := by
  induction l with
  | nil => simp [sortLe]
  | cons b t ih =>
    unfold sortLe at *
    simp only [List.foldr_cons, mem_insertLe, ih, List.mem_cons]

theorem uncheckedEnqueue_trail_lim (s : Solver) (p : Lit) (f? : Option Nat) :
    (uncheckedEnqueue s p f?).trail_lim = s.trail_lim := by
  cases f? <;> simp [uncheckedEnqueue, apply_ite Solver.trail_lim]

theorem enqueue_trail_lim (s : Solver) (p : Lit) (f? : Option Nat) :
    ((enqueue s p f?).2).trail_lim = s.trail_lim := by
  unfold enqueue
  split
  · simp
  · simp [uncheckedEnqueue_trail_lim]

theorem foldl_enqueue_neg_trail_lim (ls : List Lit) (s : Solver) :
    (ls.foldl (fun s l => (enqueue s (litNeg l) none).2) s).trail_lim = s.trail_lim := by
  induction ls generalizing s with
  | nil => rfl
  | cons a t ih => rw [List.foldl_cons, ih, enqueue_trail_lim]

theorem vlEnqueueNeg_dl (cr : Nat) (s : Solver) :
    decisionLevel (vlEnqueueNeg cr s) = decisionLevel s + 1 := by
  unfold vlEnqueueNeg decisionLevel
  rw [foldl_enqueue_neg_trail_lim]
  simp [newDecisionLevel]

theorem vlPre_dl (cr : Nat) (s : Solver) :
    decisionLevel (vlPre cr s) = decisionLevel s + 2 := by
  unfold vlPre
  show decisionLevel (newDecisionLevel (vlEnqueueNeg cr s)) = decisionLevel s + 2
  have h := vlEnqueueNeg_dl cr s
  simp [newDecisionLevel, decisionLevel] at h ⊢
  omega

theorem cancelUntil_zero_dl (s : Solver) : decisionLevel (cancelUntil s 0) = 0 := by
  unfold cancelUntil
  split
  · simp [decisionLevel]
  · unfold decisionLevel at *
    omega

theorem vlFinish_dl (s : Solver) : decisionLevel (vlFinish s) = 0 := by
  unfold vlFinish
  simpa [decisionLevel] using cancelUntil_zero_dl s

theorem cancelStep_model (s : Solver) (c : Nat) : (cancelStep s c).model = s.model := by
  simp [cancelStep, insertVarOrder, heapInsert, apply_ite Solver.model]

theorem cancelStep_vardata (s : Solver) (c : Nat) : (cancelStep s c).vardata = s.vardata := by
  simp [cancelStep, insertVarOrder, heapInsert, apply_ite Solver.vardata]

theorem foldl_cancelStep_model (l : List Nat) (s : Solver) :
    (l.foldl cancelStep s).model = s.model := by
  induction l generalizing s with
  | nil => rfl
  | cons a t ih => rw [List.foldl_cons, ih, cancelStep_model]

theorem foldl_cancelStep_vardata (l : List Nat) (s : Solver) :
    (l.foldl cancelStep s).vardata = s.vardata := by
  induction l generalizing s with
  | nil => rfl
  | cons a t ih => rw [List.foldl_cons, ih, cancelStep_vardata]

theorem cancelUntil_model (s : Solver) (lvl : Nat) : (cancelUntil s lvl).model = s.model := by
  unfold cancelUntil
  split
  · exact foldl_cancelStep_model _ _
  · rfl

theorem cancelUntil_vardata (s : Solver) (lvl : Nat) :
    (cancelUntil s lvl).vardata = s.vardata := by
  unfold cancelUntil
  split
  · exact foldl_cancelStep_vardata _ _
  · rfl

theorem acScanLog_sat (s : Solver) (l : Lit) (hv : value s l = .t) :
    ∀ (lits : List Lit) (prev : Option Lit) (acc : List Lit), l ∈ lits →
      acScanLog s lits prev acc = none := by
  intro lits
  induction lits with
  | nil => intro _ _ h; cases h
  | cons a t ih =>
    intro prev acc hmem
    unfold acScanLog
    split
    · rfl
    · rename_i hcond
      have ha : l ≠ a := by
        intro he
        subst he
        exact hcond (Or.inl hv)
      have ht : l ∈ t := by
        cases List.mem_cons.mp hmem with
        | inl h => exact absurd h ha
        | inr h => exact h
      split
      · exact ih _ _ ht
      · exact ih _ _ ht

theorem acScanPlain_sat (s : Solver) (l : Lit) (hv : value s l = .t) :
    ∀ (lits : List Lit) (prev : Option Lit) (acc : List Lit), l ∈ lits →
      acScanPlain s lits prev acc = none := by
  intro lits
  induction lits with
  | nil => intro _ _ h; cases h
  | cons a t ih =>
    intro prev acc hmem
    unfold acScanPlain
    split
    · rfl
    · rename_i hcond
      have ha : l ≠ a := by
        intro he
        subst he
        exact hcond (Or.inl hv)
      have ht : l ∈ t := by
        cases List.mem_cons.mp hmem with
        | inl h => exact absurd h ha
        | inr h => exact h
      split
      · exact ih _ _ ht
      · exact ih _ _ ht

theorem length_foldl_set (b : Bool) :
    ∀ (ls : List Lit) (sn : List Bool),
      (ls.foldl (fun sn l => sn.set (litVar l) b) sn).length = sn.length := by
  intro ls
  induction ls with
  | nil => intro sn; rfl
  | cons a t ih => intro sn; rw [List.foldl_cons, ih, List.length_set]

theorem length_setAllTrue (ls : List Lit) (sn : List Bool) :
    (setAllTrue ls sn).length = sn.length := length_foldl_set true ls sn

theorem get?_foldl_set (b : Bool) :
    ∀ (ls : List Lit) (sn : List Bool) (j : Nat),
      (ls.foldl (fun sn l => sn.set (litVar l) b) sn)[j]? =
        if (∃ l ∈ ls, litVar l = j) ∧ j < sn.length then some b else sn[j]? := by
  intro ls
  induction ls with
  | nil =>
    intro sn j
    simp
  | cons a t ih =>
    intro sn j
    rw [List.foldl_cons, ih, List.length_set]
    by_cases h1 : (∃ l ∈ t, litVar l = j) ∧ j < sn.length
    · rw [if_pos h1, if_pos ⟨⟨h1.1.choose, List.mem_cons_of_mem a h1.1.choose_spec.1,
        h1.1.choose_spec.2⟩, h1.2⟩]
    · rw [if_neg h1, List.getElem?_set]
      by_cases hj : litVar a = j
      · by_cases hlen : j < sn.length
        · rw [if_pos hj, if_pos (hj ▸ hlen), if_pos ⟨⟨a, List.mem_cons_self a t, hj⟩, hlen⟩]
        · rw [if_pos hj, if_neg (fun hh => hlen (hj ▸ hh)), if_neg (fun hh => hlen hh.2)]
          exact (List.getElem?_eq_none (by omega)).symm
      · rw [if_neg hj]
        by_cases h2 : (∃ l ∈ a :: t, litVar l = j) ∧ j < sn.length
        · obtain ⟨⟨l, hl, hlv⟩, hlen⟩ := h2
          cases List.mem_cons.mp hl with
          | inl he => exact absurd (he ▸ hlv) hj
          | inr ht => exact absurd ⟨⟨l, ht, hlv⟩, hlen⟩ h1
        · rw [if_neg h2]

theorem getD_setAllTrue_false (ls : List Lit) (sn : List Bool) (j : Nat)
    (h : (setAllTrue ls sn).getD j false = false) : sn.getD j false = false := by
  unfold setAllTrue at h
  rw [List.getD_eq_getElem?_getD, get?_foldl_set true ls sn j] at h
  rw [List.getD_eq_getElem?_getD]
  split at h
  · cases h
  · rw [h]

theorem zeroAll_setAllTrue (ls : List Lit) (sn : List Bool)
    (h : ∀ l ∈ ls, sn.getD (litVar l) false = false) :
    zeroAll ls (setAllTrue ls sn) = sn := by
  apply List.ext_getElem?
  intro j
  unfold zeroAll setAllTrue
  rw [get?_foldl_set false, get?_foldl_set true, length_foldl_set]
  by_cases hc : (∃ l ∈ ls, litVar l = j) ∧ j < sn.length
  · rw [if_pos hc]
    obtain ⟨⟨l, hl, hlv⟩, hlen⟩ := hc
    have h0 := h l hl
    rw [List.getD_eq_getElem?_getD, hlv, List.getElem?_eq_getElem hlen] at h0
    rw [List.getElem?_eq_getElem hlen]
    simp only [Option.getD_some] at h0
    rw [h0]
  · rw [if_neg hc, if_neg hc]

theorem setAllTrue_append_one (ls : List Lit) (q : Lit) (sn : List Bool) :
    setAllTrue (ls ++ [q]) sn = (setAllTrue ls sn).set (litVar q) true := by
  unfold setAllTrue
  rw [List.foldl_append]
  rfl

theorem lrRollback_restores (s0 : Solver) (top : Nat) (s : Solver)
    (hinv : LrInv s0 top s) :
    (lrRollback s top).seen = s0.seen ∧
    (lrRollback s top).analyze_toclear = s0.analyze_toclear := by
  obtain ⟨htop, d, htc, hsn, hun⟩ := hinv
  unfold lrRollback
  constructor
  · show (s.analyze_toclear.drop top).foldl (fun sn l => sn.set (litVar l) false) s.seen = s0.seen
    rw [htc, htop, List.drop_left, hsn]
    exact zeroAll_setAllTrue d s0.seen hun
  · show s.analyze_toclear.take top = s0.analyze_toclear
    rw [htc, htop, List.take_left]

theorem lrInv_push (s0 : Solver) (top : Nat) (s : Solver) (q : Lit)
    (hinv : LrInv s0 top s) (hq : s.seen.getD (litVar q) false = false) :
    LrInv s0 top { s with
      seen := s.seen.set (litVar q) true
      analyze_stack := s.analyze_stack ++ [q]
      analyze_toclear := s.analyze_toclear ++ [q] } := by
  obtain ⟨htop, d, htc, hsn, hun⟩ := hinv
  refine ⟨htop, d ++ [q], ?_, ?_, ?_⟩
  · show s.analyze_toclear ++ [q] = s0.analyze_toclear ++ (d ++ [q])
    rw [htc, List.append_assoc]
  · show s.seen.set (litVar q) true = setAllTrue (d ++ [q]) s0.seen
    rw [setAllTrue_append_one, hsn]
  · intro l hl
    cases List.mem_append.mp hl with
    | inl h => exact hun l h
    | inr h =>
      have : l = q := List.mem_singleton.mp h
      subst this
      rw [hsn] at hq
      exact getD_setAllTrue_false d s0.seen (litVar l) hq

theorem lrInner_spec (abs top : Nat) (s0 : Solver) :
    ∀ (lits : List Lit) (s : Solver) (lp : Range), LrInv s0 top s →
      (∀ sF, lrInner abs top lits s lp = .inl sF →
        sF.seen = s0.seen ∧ sF.analyze_toclear = s0.analyze_toclear ∧
        sF.log_proof = s.log_proof) ∧
      (∀ s2 lp2, lrInner abs top lits s lp = .inr (s2, lp2) →
        LrInv s0 top s2 ∧ s2.log_proof = s.log_proof) := by
  intro lits
  induction lits with
  | nil =>
    intro s lp hinv
    constructor
    · intro sF h
      unfold lrInner at h
      cases h
    · intro s2 lp2 h
      unfold lrInner at h
      injection h with h1
      injection h1 with h2 h3
      subst h2
      exact ⟨hinv, rfl⟩
  | cons q rest ih =>
    intro s lp hinv
    unfold lrInner
    by_cases h1 : !(s.seen.getD (litVar q) false)
    · rw [if_pos h1]
      by_cases h2 : level s (litVar q) > 0
      · rw [if_pos h2]
        by_cases h3 : reason s (litVar q) ≠ none ∧ (abstractLevel s (litVar q) &&& abs) ≠ 0
        · rw [if_pos h3]
          have hq : s.seen.getD (litVar q) false = false := by
            simpa using h1
          have hinv' := lrInv_push s0 top s q hinv hq
          have := ih _ lp hinv'
          exact ⟨fun sF h => let r := this.1 sF h; ⟨r.1, r.2.1, r.2.2⟩,
            fun s2 lp2 h => let r := this.2 s2 lp2 h; ⟨r.1, r.2⟩⟩
        · rw [if_neg h3]
          refine ⟨fun sF h => ?_, fun s2 lp2 h => by cases h⟩
          injection h with h1'
          subst h1'
          have hr := lrRollback_restores s0 top s hinv
          exact ⟨hr.1, hr.2, by unfold lrRollback; rfl⟩
      · rw [if_neg h2]
        by_cases h4 : s.log_proof
        · rw [if_pos h4]
          exact ih _ _ hinv
        · rw [if_neg h4]
          exact ih _ _ hinv
    · rw [if_neg h1]
      exact ih _ _ hinv

theorem lrLoop_spec (abs top : Nat) (s0 : Solver) :
    ∀ (fuel : Nat) (s : Solver) (lp : Range), LrInv s0 top s →
      ∀ b s2 lp2, lrLoop abs top fuel s lp = some (b, s2, lp2) →
        (b = false → s2.seen = s0.seen ∧ s2.analyze_toclear = s0.analyze_toclear) ∧
        s2.log_proof = s.log_proof := by
  intro fuel
  induction fuel with
  | zero => intro s lp _ b s2 lp2 h; cases h
  | succ n ih =>
    intro s lp hinv b s2 lp2 h
    unfold lrLoop at h
    cases hg : s.analyze_stack.getLast? with
    | none =>
      rw [hg] at h
      simp only at h
      injection h with h1
      injection h1 with hb h2
      injection h2 with hs2
      subst hb; subst hs2
      constructor
      · intro hf
        cases hf
      · rfl
    | some pl =>
      rw [hg] at h
      simp only at h
      cases hr : reason s (litVar pl) with
      | none => rw [hr] at h; cases h
      | some cr =>
        rw [hr] at h
        simp only at h
        have hinv' : LrInv s0 top { s with analyze_stack := s.analyze_stack.dropLast } :=
          hinv
        cases hi : lrInner abs top ((getClause { s with analyze_stack := s.analyze_stack.dropLast } cr).lits.drop 1)
            { s with analyze_stack := s.analyze_stack.dropLast }
            (if s.log_proof = true then lp.join (getClause { s with analyze_stack := s.analyze_stack.dropLast } cr).part else lp) with
        | inl sF =>
          rw [hi] at h
          injection h with h1
          injection h1 with hb h2
          injection h2 with hs2
          subst hb; subst hs2
          have := (lrInner_spec abs top s0 _ _ _ hinv').1 sF hi
          exact ⟨fun _ => ⟨this.1, this.2.1⟩, this.2.2⟩
        | inr pr =>
          obtain ⟨sm, lpm⟩ := pr
          rw [hi] at h
          have hmid := (lrInner_spec abs top s0 _ _ _ hinv').2 sm lpm hi
          have := ih sm lpm hmid.1 b s2 lp2 h
          exact ⟨this.1, this.2.trans hmid.2⟩

theorem getD_set_ne (l : List Lit) (i j : Nat) (a : Lit) (h : i ≠ j) :
    (l.set i a).getD j 0 = l.getD j 0 := by
  rw [List.getD_eq_getElem?_getD, List.getD_eq_getElem?_getD, List.getElem?_set, if_neg h]

theorem getD_set_self (l : List Lit) (i : Nat) (a : Lit) (h : i < l.length) :
    (l.set i a).getD i 0 = a := by
  rw [List.getD_eq_getElem?_getD, List.getElem?_set, if_pos rfl, if_pos h]
  rfl

theorem argmaxFold_spec (f : Nat → Nat) :
    ∀ (l : List Nat) (m0 : Nat),
      (argmaxFold f l m0 = m0 ∨ (argmaxFold f l m0 ∈ l ∧ 2 ≤ argmaxFold f l m0)) ∧
      f m0 ≤ f (argmaxFold f l m0) ∧
      ∀ i ∈ l, 2 ≤ i → f i ≤ f (argmaxFold f l m0) := by
  intro l
  induction l with
  | nil =>
    intro m0
    refine ⟨Or.inl rfl, Nat.le_refl _, ?_⟩
    intro i hi
    cases hi
  | cons a t ih =>
    intro m0
    have hstep : argmaxFold f (a :: t) m0 =
        argmaxFold f t (if 2 ≤ a ∧ f a > f m0 then a else m0) := by
      unfold argmaxFold
      rw [List.foldl_cons]
    by_cases hc : 2 ≤ a ∧ f a > f m0
    · rw [hstep, if_pos hc]
      obtain ⟨hmem, hle, hall⟩ := ih a
      refine ⟨?_, ?_, ?_⟩
      · cases hmem with
        | inl he => exact Or.inr ⟨by rw [he]; exact List.mem_cons_self a t, by rw [he]; exact hc.1⟩
        | inr hm => exact Or.inr ⟨List.mem_cons_of_mem a hm.1, hm.2⟩
      · exact Nat.le_trans (Nat.le_of_lt hc.2) hle
      · intro i hi h2i
        cases List.mem_cons.mp hi with
        | inl he => subst he; exact hle
        | inr hm => exact hall i hm h2i
    · rw [hstep, if_neg hc]
      obtain ⟨hmem, hle, hall⟩ := ih m0
      refine ⟨?_, hle, ?_⟩
      · cases hmem with
        | inl he => exact Or.inl he
        | inr hm => exact Or.inr ⟨List.mem_cons_of_mem a hm.1, hm.2⟩
      · intro i hi h2i
        cases List.mem_cons.mp hi with
        | inl he =>
          subst he
          have : ¬(f i > f m0) := fun hgt => hc ⟨h2i, hgt⟩
          exact Nat.le_trans (Nat.le_of_not_lt this) hle
        | inr hm => exact hall i hm h2i

theorem findBtLevel_len (st : Solver) (outl : List Lit) :
    (findBtLevel st outl).1.length = outl.length := by
  unfold findBtLevel
  split
  · rfl
  · simp [List.length_set]

theorem findBtLevel_getD0 (st : Solver) (outl : List Lit) :
    (findBtLevel st outl).1.getD 0 0 = outl.getD 0 0 := by
  unfold findBtLevel
  split
  · rfl
  · have hmi := (argmaxFold_spec (fun j => level st (litVar (outl.getD j 0)))
      (List.range outl.length) 1).1
    have h1 : 1 ≤ argmaxFold (fun j => level st (litVar (outl.getD j 0)))
        (List.range outl.length) 1 := by
      cases hmi with
      | inl he => omega
      | inr hm => omega
    show ((outl.set _ (outl.getD 1 0)).set 1 (outl.getD _ 0)).getD 0 0 = outl.getD 0 0
    rw [getD_set_ne _ _ _ _ (by omega), getD_set_ne _ _ _ _ (by omega)]

theorem findBtLevel_spec (st : Solver) (outl : List Lit) (h2 : 2 ≤ outl.length) :
    (findBtLevel st outl).2 = level st (litVar ((findBtLevel st outl).1.getD 1 0)) ∧
    ∀ i, 1 ≤ i → i < outl.length →
      level st (litVar ((findBtLevel st outl).1.getD i 0)) ≤
        level st (litVar ((findBtLevel st outl).1.getD 1 0)) := by
  obtain ⟨hmi, hf1, hall⟩ := argmaxFold_spec (fun j => level st (litVar (outl.getD j 0)))
    (List.range outl.length) 1
  set mi := argmaxFold (fun j => level st (litVar (outl.getD j 0)))
    (List.range outl.length) 1 with hmidef
  have h1mi : 1 ≤ mi := by
    cases hmi with
    | inl he => omega
    | inr hm => omega
  have hmilt : mi < outl.length := by
    cases hmi with
    | inl he => omega
    | inr hm => exact List.mem_range.mp hm.1
  have hne1 : ¬(outl.length = 1) := by omega
  have hres1 : (findBtLevel st outl).1 = (outl.set mi (outl.getD 1 0)).set 1 (outl.getD mi 0) := by
    unfold findBtLevel
    rw [if_neg hne1]
  have hres2 : (findBtLevel st outl).2 = level st (litVar (outl.getD mi 0)) := by
    unfold findBtLevel
    rw [if_neg hne1]
  have hget1 : ((outl.set mi (outl.getD 1 0)).set 1 (outl.getD mi 0)).getD 1 0 =
      outl.getD mi 0 := by
    rw [getD_set_self]
    rw [List.length_set]
    omega
  rw [hres1, hres2, hget1]
  refine ⟨rfl, ?_⟩
  intro i h1i hilen
  by_cases hi1 : i = 1
  · subst hi1
    rw [hget1]
  · rw [getD_set_ne _ _ _ _ (fun he => hi1 he.symm)]
    by_cases himi : i = mi
    · subst himi
      rw [getD_set_self _ _ _ hilen]
      exact hf1
    · rw [getD_set_ne _ _ _ _ (fun he => himi he.symm)]
      exact hall i (List.mem_range.mpr hilen) (by omega)

theorem scanStep_prefix (dl : Nat) (acc : Solver × List Lit × Int × Range) (q : Lit) :
    ∃ t, (analyzeScanStep dl acc q).2.1 = acc.2.1 ++ t := by
  obtain ⟨s, outl, pc, part⟩ := acc
  simp only [analyzeScanStep]
  split_ifs
  · exact ⟨[], by simp⟩
  · exact ⟨[q], rfl⟩
  · exact ⟨[], by simp⟩
  · exact ⟨[], by simp⟩
  · exact ⟨[], by simp⟩

theorem foldl_scan_prefix (dl : Nat) :
    ∀ (ls : List Lit) (acc : Solver × List Lit × Int × Range),
      ∃ t, (ls.foldl (analyzeScanStep dl) acc).2.1 = acc.2.1 ++ t := by
  intro ls
  induction ls with
  | nil => intro acc; exact ⟨[], by simp⟩
  | cons a rest ih =>
    intro acc
    rw [List.foldl_cons]
    obtain ⟨t1, h1⟩ := scanStep_prefix dl acc a
    obtain ⟨t2, h2⟩ := ih (analyzeScanStep dl acc a)
    exact ⟨t1 ++ t2, by rw [h2, h1, List.append_assoc]⟩

theorem analyzeResolveStep_prefix (dl : Nat) (cr : Nat) (p : Option Lit)
    (acc : Solver × List Lit × Int × Range) :
    ∃ t, (analyzeResolveStep dl cr p acc).2.1 = acc.2.1 ++ t := by
  unfold analyzeResolveStep
  exact foldl_scan_prefix dl _ _

theorem analyzeLoop_prefix (dl : Nat) :
    ∀ (fuel : Nat) (c : Option Nat) (p : Option Lit) (idx : Nat)
      (acc : Solver × List Lit × Int × Range) (r : Solver × List Lit × Lit × Range),
      analyzeLoop dl fuel c p idx acc = some r → ∃ t, r.2.1 = acc.2.1 ++ t := by
  intro fuel
  induction fuel with
  | zero => intro c p idx acc r h; cases h
  | succ n ih =>
    intro c p idx acc r h
    unfold analyzeLoop at h
    cases c with
    | none => cases h
    | some cr =>
      simp only at h
      obtain ⟨t1, h1⟩ := analyzeResolveStep_prefix dl cr p acc
      cases hf : findSeenDown (analyzeResolveStep dl cr p acc).1 idx with
      | none =>
        rw [hf] at h
        cases h
      | some idx2 =>
        rw [hf] at h
        simp only at h
        split at h
        · obtain ⟨t2, hh⟩ := ih _ _ _ _ _ h
          simp only at hh
          refine ⟨t1 ++ t2, ?_⟩
          rw [hh, h1, List.append_assoc]
        · injection h with h3
          subst h3
          exact ⟨t1, h1⟩

theorem ccmin2_prefix (fuel abs : Nat) :
    ∀ (ls : List Lit) (kept : List Lit) (part : Range) (s : Solver)
      (r : List Lit × Range × Solver),
      ccmin2 fuel abs ls (kept, part, s) = some r → ∃ t, r.1 = kept ++ t := by
  intro ls
  induction ls with
  | nil =>
    intro kept part s r h
    unfold ccmin2 at h
    injection h with h1
    subst h1
    exact ⟨[], by simp⟩
  | cons a rest ih =>
    intro kept part s r h
    unfold ccmin2 at h
    split at h
    · obtain ⟨t, ht⟩ := ih _ _ _ _ h
      exact ⟨[a] ++ t, by rw [ht, List.append_assoc]⟩
    · cases hlr : litRedundant fuel a abs part s with
      | none => rw [hlr] at h; cases h
      | some tr =>
        obtain ⟨b, part', s'⟩ := tr
        rw [hlr] at h
        cases b with
        | true =>
          simp only at h
          exact ih _ _ _ _ h
        | false =>
          simp only at h
          obtain ⟨t, ht⟩ := ih _ _ _ _ h
          exact ⟨[a] ++ t, by rw [ht, List.append_assoc]⟩

theorem ccminApply_prefix (fuel : Nat) (outl : List Lit) (part : Range) (s : Solver)
    (r : List Lit × Range × Solver) (h : ccminApply fuel outl part s = some r) :
    ∃ t, r.1 = outl.take 1 ++ t := by
  unfold ccminApply at h
  split at h
  · exact ccmin2_prefix fuel _ _ _ _ _ _ h
  · split at h
    · injection h with h1
      subst h1
      exact ⟨(outl.drop 1).filter (ccmin1Keep s), rfl⟩
    · injection h with h1
      subst h1
      exact ⟨outl.drop 1, (List.take_append_drop 1 outl).symm⟩

theorem getD_set_ne2 {α : Type} (l : List α) (i j : Nat) (a d : α) (h : i ≠ j) :
    (l.set i a).getD j d = l.getD j d := by
  rw [List.getD_eq_getElem?_getD, List.getD_eq_getElem?_getD, List.getElem?_set, if_neg h]

theorem getD_set_self2 {α : Type} (l : List α) (i : Nat) (a d : α) (h : i < l.length) :
    (l.set i a).getD i d = a := by
  rw [List.getD_eq_getElem?_getD, List.getElem?_set, if_pos rfl, if_pos h]
  rfl

theorem locked_fields (s s' : Solver) (cr : Nat) (h1 : s'.assigns = s.assigns)
    (h2 : s'.vardata = s.vardata) (h3 : s'.ca = s.ca) : locked s' cr = locked s cr := by
  simp only [locked, getClause, Clause.get, value, valueVar, reason]
  simp only [h1, h2, h3]

theorem detachClause_assigns (s : Solver) (cr : Nat) (b : Bool) :
    (detachClause s cr b).assigns = s.assigns := by
  simp [detachClause, smudge, apply_ite Solver.assigns]

theorem detachClause_vardata (s : Solver) (cr : Nat) (b : Bool) :
    (detachClause s cr b).vardata = s.vardata := by
  simp [detachClause, smudge, apply_ite Solver.vardata]

theorem detachClause_ca (s : Solver) (cr : Nat) (b : Bool) :
    (detachClause s cr b).ca = s.ca := by
  simp [detachClause, smudge, apply_ite Solver.ca]

theorem detachClause_log (s : Solver) (cr : Nat) (b : Bool) :
    (detachClause s cr b).log_proof = s.log_proof := by
  simp [detachClause, smudge, apply_ite Solver.log_proof]

theorem removeClausePre_assigns (s : Solver) (cr : Nat) :
    (removeClausePre s cr).assigns = s.assigns := by
  simp [removeClausePre, detachClause_assigns, apply_ite Solver.assigns]

theorem removeClausePre_vardata (s : Solver) (cr : Nat) :
    (removeClausePre s cr).vardata = s.vardata := by
  simp [removeClausePre, detachClause_vardata, apply_ite Solver.vardata]

theorem removeClausePre_ca (s : Solver) (cr : Nat) :
    (removeClausePre s cr).ca = s.ca := by
  simp [removeClausePre, detachClause_ca, apply_ite Solver.ca]

theorem removeClausePre_log (s : Solver) (cr : Nat) :
    (removeClausePre s cr).log_proof = s.log_proof := by
  simp [removeClausePre, detachClause_log, apply_ite Solver.log_proof]

theorem locked_removeClausePre (s : Solver) (cr j : Nat) :
    locked (removeClausePre s cr) j = locked s j :=
  locked_fields s _ j (removeClausePre_assigns s cr) (removeClausePre_vardata s cr)
    (removeClausePre_ca s cr)

theorem removeClause_assigns (s : Solver) (cr : Nat) :
    (removeClause s cr).assigns = s.assigns := by
  simp [removeClause, setClause, apply_ite Solver.assigns, removeClausePre_assigns]

theorem removeClause_vardata (s : Solver) (cr : Nat) (h : locked s cr = false) :
    (removeClause s cr).vardata = s.vardata := by
  simp [removeClause, setClause, apply_ite Solver.vardata, locked_removeClausePre,
    removeClausePre_vardata, h]

theorem removeClause_ca (s : Solver) (cr : Nat) :
    (removeClause s cr).ca = s.ca.set cr { s.ca.getD cr {} with mark := 1 } := by
  simp [removeClause, setClause, getClause, apply_ite Solver.ca, removeClausePre_ca]

theorem removeClause_lits (s : Solver) (cr j : Nat) :
    (getClause (removeClause s cr) j).lits = (getClause s j).lits := by
  unfold getClause
  rw [removeClause_ca]
  by_cases hj : cr = j
  · subst hj
    by_cases hlen : cr < s.ca.length
    · rw [getD_set_self2 _ _ _ _ hlen]
    · rw [List.set_eq_of_length_le (Nat.le_of_not_lt hlen)]
  · rw [getD_set_ne2 _ _ _ _ _ hj]

theorem removeClause_act (s : Solver) (cr j : Nat) :
    (getClause (removeClause s cr) j).act = (getClause s j).act := by
  unfold getClause
  rw [removeClause_ca]
  by_cases hj : cr = j
  · subst hj
    by_cases hlen : cr < s.ca.length
    · rw [getD_set_self2 _ _ _ _ hlen]
    · rw [List.set_eq_of_length_le (Nat.le_of_not_lt hlen)]
  · rw [getD_set_ne2 _ _ _ _ _ hj]

theorem SameCore_refl (s : Solver) : SameCore s s := ⟨rfl, rfl, fun _ => ⟨rfl, rfl⟩⟩

theorem locked_SameCore (s0 s : Solver) (h : SameCore s0 s) (j : Nat) :
    locked s j = locked s0 j := by
  simp only [locked, Clause.get, value, valueVar, reason]
  simp only [h.1, h.2.1, (h.2.2 j).1]

theorem size_SameCore (s0 s : Solver) (h : SameCore s0 s) (j : Nat) :
    (getClause s j).size = (getClause s0 j).size := by
  simp only [Clause.size]
  rw [(h.2.2 j).1]

theorem removeClause_SameCore (s0 s : Solver) (cr : Nat) (h : SameCore s0 s)
    (hl : locked s cr = false) : SameCore s0 (removeClause s cr) := by
  refine ⟨?_, ?_, fun j => ⟨?_, ?_⟩⟩
  · rw [removeClause_assigns]
    exact h.1
  · rw [removeClause_vardata _ _ hl]
    exact h.2.1
  · rw [removeClause_lits]
    exact (h.2.2 j).1
  · rw [removeClause_act]
    exact (h.2.2 j).2

theorem reduceDBLoop_spec (n : Nat) (lim : Dbl) (s0 : Solver) :
    ∀ (L : List (Nat × Nat)) (s : Solver) (kept : List Nat), SameCore s0 s →
      SameCore s0 (reduceDBLoop n lim L s kept).1 ∧
      ∀ cr, cr ∈ kept ++ L.map Prod.snd → cr ∉ (reduceDBLoop n lim L s kept).2 →
        ∃ i, (i, cr) ∈ L ∧ (getClause s0 cr).size > 2 ∧ locked s0 cr = false ∧
          (i < n / 2 ∨ (getClause s0 cr).act < lim) := by
  intro L
  induction L with
  | nil =>
    intro s kept hsc
    refine ⟨hsc, ?_⟩
    intro cr hmem hnot
    simp only [reduceDBLoop] at hnot
    simp only [List.map_nil, List.append_nil] at hmem
    exact absurd hmem hnot
  | cons p rest ih =>
    obtain ⟨i, cr0⟩ := p
    intro s kept hsc
    simp only [reduceDBLoop]
    by_cases hcond : (getClause s cr0).size > 2 ∧ locked s cr0 = false ∧
        (i < n / 2 ∨ (getClause s cr0).act < lim)
    · rw [if_pos hcond]
      have hsc2 : SameCore s0 (removeClause s cr0) :=
        removeClause_SameCore s0 s cr0 hsc hcond.2.1
      refine ⟨(ih _ _ hsc2).1, ?_⟩
      intro cr hmem hnot
      by_cases hcr : cr ∈ kept ++ rest.map Prod.snd
      · obtain ⟨j, hjmem, hrest⟩ := (ih (removeClause s cr0) kept hsc2).2 cr hcr hnot
        exact ⟨j, List.mem_cons_of_mem _ hjmem, hrest⟩
      · have hcr0 : cr = cr0 := by
          simp only [List.map_cons, List.mem_append, List.mem_cons] at hmem
          simp only [List.mem_append] at hcr
          rcases hmem with h1 | h1 | h1
          · exact absurd (Or.inl h1) hcr
          · exact h1
          · exact absurd (Or.inr h1) hcr
        subst hcr0
        refine ⟨i, List.mem_cons_self _ _, ?_, ?_, ?_⟩
        · rw [← size_SameCore s0 s hsc]
          exact hcond.1
        · rw [← locked_SameCore s0 s hsc]
          exact hcond.2.1
        · rw [← (hsc.2.2 cr).2]
          exact hcond.2.2
    · rw [if_neg hcond]
      refine ⟨(ih _ _ hsc).1, ?_⟩
      intro cr hmem hnot
      have hmem2 : cr ∈ (kept ++ [cr0]) ++ rest.map Prod.snd := by
        simp only [List.map_cons, List.mem_append, List.mem_cons] at hmem
        simp only [List.mem_append, List.mem_singleton]
        rcases hmem with h1 | h1 | h1
        · exact Or.inl (Or.inl h1)
        · exact Or.inl (Or.inr h1)
        · exact Or.inr h1
      obtain ⟨j, hjmem, hrest⟩ := (ih s (kept ++ [cr0]) hsc).2 cr hmem2 hnot
      exact ⟨j, List.mem_cons_of_mem _ hjmem, hrest⟩

theorem checkGarbage_learnts (s : Solver) : (checkGarbage s).learnts = s.learnts := by
  cases hg : s.garbage_frac with
  | none => simp [checkGarbage, hg]
  | some f => simp [checkGarbage, garbageCollect, hg, apply_ite Solver.learnts]

theorem reduceDB_learnts_eq (s : Solver) :
    (reduceDB s).learnts =
      (reduceDBLoop s.learnts.length (s.cla_inc / Dbl.ofNat s.learnts.length)
        (sortLearnts s).enum s []).2 := by
  simp only [reduceDB]
  rw [checkGarbage_learnts]

/-! ### Claim theorems -/

/-- C10: for any two values of the `assumps` argument and the same solver
state, the output of `toDimacs` (header, assumption units and clause
lines) is identical, because the implementation reads the member field
`assumptions` instead of the parameter. -/
theorem C10_toDimacs_independent_of_assumps (s : Solver) (a1 a2 : List Lit) :
    toDimacs s a1 = toDimacs s a2 := rfl

/-- C1 (failing input): adding `(¬x0 ∨ x1)`, `(¬x0 ∨ ¬x1)` and then the
unit `(x0)` with proof logging on makes the level-0 enqueue conflict;
`add_clause` sets `ok = false` but logs nothing, so `solve()` returns
Unsat (`l_False`) with an *empty* proof, and `validate()` violates its
own asserted precondition `proof.size() > 0` (modelled as `none`)
instead of returning true. -/
theorem C1_solve_unsat_empty_proof_validate_fails :
    cexSolveRes = some (.f, cexSolved) ∧ cexSolved.log_proof = true ∧
    cexSolved.proof = [] ∧ validate 10 cexSolved = none :=
  ⟨rfl, rfl, rfl, rfl⟩

/-- C2 (failing input): on `cexS2` (consistent, level 0, `x0` unassigned)
the call `add_clause (x0)` enqueues `x0`, the subsequent propagation
conflicts, and `add_clause` returns false with `ok = false` — but the
conflicting clause is *not* appended to `proof`, which stays empty,
contradicting the claimed empty-clause witness. -/
theorem C2_addClause_unit_conflict_not_logged :
    cexS2.ok = true ∧ decisionLevel cexS2 = 0 ∧ value cexS2 0 = .u ∧
    cexAddRes = some (false, cexS3) ∧ cexS3.ok = false ∧ cexS3.proof = [] :=
  ⟨rfl, rfl, rfl, rfl, rfl, rfl⟩

/-- C5 (failing input): `labelLevel0` always sets the cursor to
`trail.size() - 1` — the *last* index it just processed — rather than
past it; consequently two successive calls both inspect trail position 1
and the resolution `binRes x1 x0 (reason x1)` is emitted twice. -/
theorem C5_labelLevel0_start_off_by_one :
    (∀ (s : Solver) (v : PVisitor),
      (labelLevel0 s v).1.start = (s.trail.length : Int) - 1) ∧
    lblCall1.1.start = 1 ∧ lblCall1.2.events = [.binRes 2 0 0] ∧
    lblCall2.2.events = [.binRes 2 0 0, .binRes 2 0 0, .binRes 4 2 2] :=
  ⟨fun _ _ => rfl, rfl, rfl, rfl⟩

/-- C9 (counterexample): in a contradictory solver (`ok = false`) at
decision level 0 whose literal `x0` is assigned True, `add_clause (x0)`
returns **false**, not true as claimed. -/
theorem C9_counterexample_ok_false :
    decisionLevel okFalseS = 0 ∧ value okFalseS 0 = .t ∧
    (addClause_ 10 [0] (some (1, 1)) okFalseS).map Prod.fst = some false :=
  ⟨rfl, rfl, rfl⟩

/-- C9 (amended): provided the solver is consistent (`ok = true`), a
clause containing a literal already True at decision level 0 makes
`add_clause` return true and leave the solver state completely
unchanged: no allocation, nothing appended to `clauses` or `proof`, no
partition update, trail untouched. -/
theorem C9_addClause_satisfied_noop (fuel : Nat) (ps : List Lit) (part : Range)
    (s : Solver) (hok : s.ok = true) (hdl : decisionLevel s = 0)
    (hsat : ∃ l ∈ ps, value s l = .t) :
    addClause_ fuel ps part s = some (true, s) := by
  obtain ⟨l, hl, hv⟩ := hsat
  have hl' : l ∈ sortLe (fun a b : Lit => decide (a ≤ b)) ps := (mem_sortLe _ _ _).mpr hl
  unfold addClause_
  rw [hok]
  simp only [Bool.not_true, Bool.false_eq_true, if_false]
  have hscan : (if s.log_proof then
      acScanLog s (sortLe (fun a b : Lit => decide (a ≤ b)) ps) none []
    else acScanPlain s (sortLe (fun a b : Lit => decide (a ≤ b)) ps) none []) = none := by
    split
    · exact acScanLog_sat s l hv _ none [] hl'
    · exact acScanPlain_sat s l hv _ none [] hl'
  rw [hscan]

/-- C9 (witness): the amended claim at a concrete consistent state. -/
theorem C9_witness :
    okTrueS.ok = true ∧ decisionLevel okTrueS = 0 ∧
    addClause_ 10 [0] (some (1, 1)) okTrueS = some (true, okTrueS) :=
  ⟨rfl, rfl, C9_addClause_satisfied_noop 10 [0] (some (1, 1)) okTrueS rfl rfl
    ⟨0, List.mem_singleton.mpr rfl, rfl⟩⟩

/-- C4: `validateLemma` enqueues the negated lemma literals at decision
level 1 and propagates at decision level 2; it returns false exactly
when that propagation finds no conflict, and a true return leaves the
decision level restored to 0 with `ok = true`. -/
theorem C4_validateLemma_iff (fuel cr : Nat) (s : Solver) (r : Bool × Solver)
    (hdl : decisionLevel s = 0) (h : validateLemma fuel cr s = some r) :
    decisionLevel (vlEnqueueNeg cr s) = 1 ∧
    decisionLevel (vlPre cr s) = 2 ∧
    (r.1 = false ↔ ∃ s2, propagate fuel false (vlPre cr s) = some (none, s2)) ∧
    (r.1 = true → decisionLevel r.2 = 0 ∧ r.2.ok = true) := by
  refine ⟨by rw [vlEnqueueNeg_dl, hdl], by rw [vlPre_dl, hdl], ?_, ?_⟩
  · unfold validateLemma at h
    cases hp : propagate fuel false (vlPre cr s) with
    | none => rw [hp] at h; cases h
    | some pr =>
      rw [hp] at h
      obtain ⟨confl, s2⟩ := pr
      cases confl with
      | none =>
        simp only at h
        injection h with h1
        subst h1
        exact ⟨fun _ => ⟨s2, rfl⟩, fun _ => rfl⟩
      | some c =>
        simp only at h
        injection h with h1
        subst h1
        constructor
        · intro hf; simp at hf
        · rintro ⟨s3, he⟩
          simp at he
  · intro htrue
    unfold validateLemma at h
    cases hp : propagate fuel false (vlPre cr s) with
    | none => rw [hp] at h; cases h
    | some pr =>
      rw [hp] at h
      obtain ⟨confl, s2⟩ := pr
      cases confl with
      | none =>
        simp only at h
        injection h with h1
        subst h1
        cases htrue
      | some c =>
        simp only at h
        injection h with h1
        subst h1
        exact ⟨vlFinish_dl _, rfl⟩

/-- C4 (witness): `validateLemma` at a concrete core unit lemma whose
negation propagates without conflict, so it returns false. -/
theorem C4_witness :
    decisionLevel vlemS = 0 ∧
    ((validateLemma 10 0 vlemS).getD (true, default)).1 = false :=
  ⟨rfl, ((C4_validateLemma_iff 10 0 vlemS ((validateLemma 10 0 vlemS).getD (true, default))
    rfl rfl).2.2.1).mpr ⟨_, rfl⟩⟩

/-- C3: on a successful return of `analyze`, the learnt clause is
nonempty with the negation of the first-UIP literal at position 0; a
unit learnt clause gives backtrack level 0, and otherwise the backtrack
level is the decision level of `out_learnt[1]`, which is maximal among
the levels of `out_learnt[1..]`. -/
theorem C3_analyze_postconditions (fuel confl : Nat) (s : Solver)
    (hdl : 0 < decisionLevel s) (learnt : List Lit) (bt : Nat) (part : Range) (s' : Solver)
    (h : analyze fuel confl s = some (learnt, bt, part, s')) :
    learnt ≠ [] ∧
    (∃ s1 outl p part1,
      analyzeLoop (decisionLevel s) fuel (some confl) none (s.trail.length - 1)
        (s, [0], 0, if s.log_proof = true then (getClause s confl).part else none) =
        some (s1, outl, p, part1) ∧
      learnt.getD 0 0 = litNeg p) ∧
    (learnt.length = 1 → bt = 0) ∧
    (1 < learnt.length →
      bt = level s' (litVar (learnt.getD 1 0)) ∧
      ∀ i, 1 ≤ i → i < learnt.length →
        level s' (litVar (learnt.getD i 0)) ≤ level s' (litVar (learnt.getD 1 0))) := by
  unfold analyze at h
  simp only at h
  cases hal : analyzeLoop (decisionLevel s) fuel (some confl) none (s.trail.length - 1)
      (s, [0], 0, if s.log_proof = true then (getClause s confl).part else none) with
  | none => rw [hal] at h; cases h
  | some q =>
    obtain ⟨s1, outl0, p, part1⟩ := q
    rw [hal] at h
    simp only at h
    obtain ⟨t0, ht0⟩ := analyzeLoop_prefix (decisionLevel s) fuel (some confl) none
      (s.trail.length - 1) (s, [0], 0,
        if s.log_proof = true then (getClause s confl).part else none)
      (s1, outl0, p, part1) hal
    simp only at ht0
    have hlen0 : 1 ≤ outl0.length := by
      rw [ht0]
      simp
    cases hcc : ccminApply fuel (outl0.set 0 (litNeg p)) part1
        { s1 with analyze_toclear := outl0.set 0 (litNeg p) } with
    | none => rw [hcc] at h; cases h
    | some rc =>
      obtain ⟨outl2, part2, s3⟩ := rc
      rw [hcc] at h
      simp only at h
      injection h with h1
      injection h1 with hlearnt h2
      injection h2 with hbt h3
      injection h3 with hpart hs'
      subst hlearnt
      subst hbt
      subst hpart
      subst hs'
      obtain ⟨t2, ht2⟩ := ccminApply_prefix fuel (outl0.set 0 (litNeg p)) part1
        { s1 with analyze_toclear := outl0.set 0 (litNeg p) } (outl2, part2, s3) hcc
      simp only at ht2
      have hlenset : (outl0.set 0 (litNeg p)).length = outl0.length := List.length_set ..
      have htake : (outl0.set 0 (litNeg p)).take 1 = [litNeg p] := by
        cases houtl : outl0 with
        | nil => rw [houtl] at hlen0; cases hlen0
        | cons a t => simp [houtl, List.set]
      have hget2 : outl2.getD 0 0 = litNeg p := by
        rw [ht2, htake]
        rfl
      have hlen2 : 1 ≤ outl2.length := by
        rw [ht2, htake]
        simp
      refine ⟨?_, ?_, ?_, ?_⟩
      · intro hne
        rw [← List.length_eq_zero] at hne
        rw [findBtLevel_len] at hne
        omega
      · exact ⟨s1, outl0, p, part1, rfl, by rw [findBtLevel_getD0]; exact hget2⟩
      · intro hlen1
        rw [findBtLevel_len] at hlen1
        unfold findBtLevel
        rw [if_pos hlen1]
      · intro hlong
        rw [findBtLevel_len] at hlong
        have hspec := findBtLevel_spec
          { s3 with
            max_literals := s3.max_literals + (outl0.set 0 (litNeg p)).length
            tot_literals := s3.tot_literals + outl2.length } outl2 (by omega)
        refine ⟨hspec.1, ?_⟩
        rw [findBtLevel_len]
        exact hspec.2

/-- C3 (witness): `analyze` at a concrete two-level conflict producing
the learnt clause `(¬x2 ∨ ¬x0)` with backtrack level 1. -/
theorem C3_witness :
    0 < decisionLevel anaS ∧
    ((analyze 10 1 anaS).getD ([], 0, none, default)).1 ≠ [] ∧
    ((analyze 10 1 anaS).getD ([], 0, none, default)).1 = [5, 1] ∧
    ((analyze 10 1 anaS).getD ([], 0, none, default)).2.1 = 1 :=
  ⟨by decide,
    (C3_analyze_postconditions 10 1 anaS (by decide)
      ((analyze 10 1 anaS).getD ([], 0, none, default)).1
      ((analyze 10 1 anaS).getD ([], 0, none, default)).2.1
      ((analyze 10 1 anaS).getD ([], 0, none, default)).2.2.1
      ((analyze 10 1 anaS).getD ([], 0, none, default)).2.2.2
      rfl).1,
    rfl, rfl⟩

/-- C7: under the reason invariant, every clause `reduceDB` removes from
`learnts` has size greater than 2, is not locked (hence is not the
reason of any currently assigned variable, level 0 included), and sits
either in the first half of the activity-sorted order or has activity
below `cla_inc / learnts.size()`. -/
theorem C7_reduceDB_removal_conditions (s : Solver) (cr : Nat)
    (hinv : ReasonInv s) (hmem : cr ∈ s.learnts) (hrem : cr ∉ (reduceDB s).learnts) :
    (getClause s cr).size > 2 ∧ locked s cr = false ∧
    (∀ v, valueVar s v ≠ .u → reason s v ≠ some cr) ∧
    ∃ i, i < (sortLearnts s).length ∧ (sortLearnts s).getD i 0 = cr ∧
      (i < s.learnts.length / 2 ∨
        (getClause s cr).act < s.cla_inc / Dbl.ofNat s.learnts.length) := by
  rw [reduceDB_learnts_eq] at hrem
  have hL := (reduceDBLoop_spec s.learnts.length (s.cla_inc / Dbl.ofNat s.learnts.length) s
    (sortLearnts s).enum s [] (SameCore_refl s)).2 cr
    (by
      simp only [List.nil_append, List.enum_map_snd]
      exact (mem_sortLe _ cr s.learnts).mpr hmem)
    hrem
  obtain ⟨i, hienum, hsz, hlock, hor⟩ := hL
  refine ⟨hsz, hlock, ?_, ?_⟩
  · intro v hv hr
    obtain ⟨he, hval⟩ := hinv v hv cr hr
    have hlt : locked s cr = true := by
      simp [locked, hval, he, hr]
    rw [hlock] at hlt
    exact Bool.noConfusion hlt
  · rw [List.mk_mem_enum_iff_getElem?] at hienum
    obtain ⟨hlen, hget⟩ := List.getElem?_eq_some.mp hienum
    refine ⟨i, hlen, ?_, hor⟩
    rw [List.getD_eq_getElem?_getD, hienum]
    rfl

/-- C7 (witness): on the concrete state `redS` (one size-3 unlocked
learnt clause, nothing assigned) `reduceDB` removes clause 0 and the
removal conditions hold. -/
theorem C7_witness :
    (getClause redS 0).size > 2 ∧ locked redS 0 = false ∧
    (∀ v, valueVar redS v ≠ .u → reason redS v ≠ some 0) ∧
    ∃ i, i < (sortLearnts redS).length ∧ (sortLearnts redS).getD i 0 = 0 ∧
      (i < redS.learnts.length / 2 ∨
        (getClause redS 0).act < redS.cla_inc / Dbl.ofNat redS.learnts.length) :=
  C7_reduceDB_removal_conditions redS 0
    (fun v hv _ _ =>
      absurd (match v with | 0 => rfl | 1 => rfl | 2 => rfl | _ + 3 => rfl) hv)
    (by decide) (by decide)

/-- C6: if `litRedundant` returns false then `seen` and
`analyze_toclear` are restored to their state at entry and the caller's
partition is unchanged; the partition accumulated along the DFS is
joined into `part` only when `litRedundant` returns true. -/
theorem C6_litRedundant_rollback (fuel : Nat) (p : Lit) (abs : Nat) (part : Range)
    (s : Solver) (b : Bool) (part' : Range) (s' : Solver)
    (h : litRedundant fuel p abs part s = some (b, part', s')) :
    (b = false → s'.seen = s.seen ∧ s'.analyze_toclear = s.analyze_toclear ∧ part' = part) ∧
    (b = true → ∃ lp, part' = (if s.log_proof then Range.join part lp else part)) := by
  have hinv : LrInv s s.analyze_toclear.length (lrInit p s) :=
    ⟨rfl, [], by simp [lrInit], rfl, by simp⟩
  unfold litRedundant at h
  cases hl : lrLoop abs s.analyze_toclear.length fuel (lrInit p s) none with
  | none => rw [hl] at h; cases h
  | some tr =>
    obtain ⟨bb, s2, lp2⟩ := tr
    rw [hl] at h
    have hspec := lrLoop_spec abs s.analyze_toclear.length s fuel (lrInit p s) none hinv
      bb s2 lp2 hl
    cases bb with
    | false =>
      simp only at h
      injection h with h1
      injection h1 with hb h2
      injection h2 with hp hs
      subst hb; subst hp; subst hs
      constructor
      · intro _
        have hr := hspec.1 rfl
        exact ⟨hr.1, hr.2, rfl⟩
      · intro ht
        cases ht
    | true =>
      simp only at h
      injection h with h1
      injection h1 with hb h2
      injection h2 with hp hs
      subst hb; subst hp; subst hs
      constructor
      · intro hf
        cases hf
      · intro _
        refine ⟨lp2, ?_⟩
        rw [hspec.2]
        rfl

/-- C6 (witness): a concrete failing `litRedundant` call (the DFS marks
`x1`, then hits the reasonless decision `x2` and rolls back): `seen`,
`analyze_toclear` and the partition are unchanged. -/
theorem C6_witness :
    ((litRedundant 10 0 2 (some (5, 5)) lrS).getD (true, none, default)).2.2.seen = lrS.seen ∧
    ((litRedundant 10 0 2 (some (5, 5)) lrS).getD
      (true, none, default)).2.2.analyze_toclear = lrS.analyze_toclear ∧
    ((litRedundant 10 0 2 (some (5, 5)) lrS).getD (true, none, default)).2.1 = some (5, 5) :=
  (C6_litRedundant_rollback 10 0 2 (some (5, 5)) lrS
    ((litRedundant 10 0 2 (some (5, 5)) lrS).getD (true, none, default)).1
    ((litRedundant 10 0 2 (some (5, 5)) lrS).getD (true, none, default)).2.1
    ((litRedundant 10 0 2 (some (5, 5)) lrS).getD (true, none, default)).2.2
    rfl).1 rfl

/-- C8 (counterexample): with two non-decision variables and the single
input clause `(x0 ∨ x1)`, `solve()` returns Sat while both variables
stay unassigned, so no literal of the original clause is True under
`model`. -/
theorem C8_counterexample :
    satSolveRes = some (.t, satSolved) ∧
    satS1.clauses = [0] ∧
    (getClause satSolved 0).lits = [0, 2] ∧
    ((getClause satSolved 0).lits.all (fun l => decide (modelValue satSolved l ≠ .t))) = true :=
  ⟨rfl, rfl, rfl, rfl⟩

/-- C8 (amended): if `solve()` returns Sat, then the restart loop ended
in a state `sEnd` with status Sat (pinned by the `solveLoop` equation),
the returned state is exactly `sEnd` after the model copy and the final
backtrack to level 0, `model` is grown to `nVars()` and `model[i]`
equals the final assignment of variable `i` in `sEnd` — the assignment
at the moment `search` reported Sat — for every variable. -/
theorem C8_solve_sat_model (fuel : Nat) (s s' : Solver)
    (h : solveInternal fuel s = some (.t, s')) :
    ∃ sEnd, solveLoop fuel 0 (solvePrep (solveClear s)) = some (.t, sEnd) ∧
      s' = cancelUntil (solveModelUpdate .t sEnd) 0 ∧
      s'.model = (List.range (nVars sEnd)).map (valueVar sEnd) ∧
      nVars s' = nVars sEnd ∧ s'.model.length = nVars s' := by
  unfold solveInternal at h
  split at h
  · simp at h
  · cases hsl : solveLoop fuel 0 (solvePrep (solveClear s)) with
    | none => rw [hsl] at h; cases h
    | some pr =>
      obtain ⟨status, s1⟩ := pr
      rw [hsl] at h
      simp only at h
      injection h with h1
      have hst : status = .t := congrArg Prod.fst h1
      subst hst
      have hs' : s' = cancelUntil (solveModelUpdate .t s1) 0 := (congrArg Prod.snd h1).symm
      have hmu : (solveModelUpdate .t s1).model =
          (List.range (nVars s1)).map (valueVar s1) := by
        unfold solveModelUpdate
        simp
      have hmv : (solveModelUpdate .t s1).vardata = s1.vardata := by
        unfold solveModelUpdate
        simp
      have hm : s'.model = (List.range (nVars s1)).map (valueVar s1) := by
        rw [hs', cancelUntil_model, hmu]
      have hv : nVars s' = nVars s1 := by
        rw [hs']
        unfold nVars
        rw [cancelUntil_vardata, hmv]
      refine ⟨s1, rfl, hs', hm, hv, ?_⟩
      rw [hm, hv]
      simp

/-- C8 (witness): the amended claim at the concrete Sat run. -/
theorem C8_witness :
    ∃ sEnd, solveLoop 20 0 (solvePrep (solveClear satS1)) = some (.t, sEnd) ∧
      satSolved = cancelUntil (solveModelUpdate .t sEnd) 0 ∧
      satSolved.model = (List.range (nVars sEnd)).map (valueVar sEnd) ∧
      nVars satSolved = nVars sEnd ∧ satSolved.model.length = nVars satSolved :=
  C8_solve_sat_model 20 satS1 satSolved rfl

end MiniSatModel
